import Mathlib

set_option autoImplicit false

/-!
Shallow embedding of the secret-santa-js matching engine.

Sources:
- strategy A greedy matcher and its retry wrapper: src/unnamed/part_000
  (matchSantas lines 126-193, retryMatchSantas lines 196-215);
- strategy B optimal-assignment matcher and the removal repair:
  src/secret-santa.js (scoreSantaMatches lines 142-225, matchSantas
  lines 227-246, removeSantaFromLastMatches lines 248-280);
- roster construction and validation: src/secret-santa.js lines 82-124
  (identical copies in part_000 lines 79-121 and part_001 lines 80-122).

JavaScript runtime features are modelled as follows: Math.random draws
are an explicit stream parameter (rand : Nat -> Nat); the munkres-js
solver is a function parameter (its output, a list of row/column pairs,
is constrained by hypotheses where a theorem needs solver guarantees);
exceptions are Except; absent optional fields (blocked, always) are
empty lists, matching the `blocked = []` destructuring defaults in the
source; JS numbers are exact integers (Int/Nat).
-/

namespace SecretSanta

/-- A participant record: `{name, email, blocked?, always?}` from the
config, with absent optional fields represented as `[]` exactly as the
source defaults them (`const { name, blocked = [], always = [] }`). -/
structure Santa where
  name : String
  email : String
  blocked : List String := []
  always : List String := []
  deriving Repr, DecidableEq

instance : Inhabited Santa := ⟨⟨"", "", [], []⟩⟩

/-- One matching round: a list of `[name, assignees]` pairs, in giver
order, as produced by both matchSantas implementations. -/
abbrev Round := List (String × List String)

/-- The error thrown at part_000 lines 176-180:
`Unable to create match #matchNum for Santa #santaNum: name`. -/
inductive MatchError where
  | exhausted (matchNum : Nat) (santaNum : Nat) (name : String)
  deriving Repr, DecidableEq

/-- JS `options[randInt(options.length)]`: `randInt n` is uniform on
`[0, n)`, so any index below the length can come up; we feed the raw
stream value `r` and reduce it mod the length.  On an empty list the JS
expression is `undefined` (randInt 0 = 0, index 0 of []), here `none`. -/
def pickRandom (r : Nat) (options : List String) : Option String :=
  options.get? (r % options.length)

/-- Inner `while (matches.length < maxCount)` loop of strategy A's
matchSantas (part_000 lines 167-187).  `need` counts the picks still
missing, `remAlways` is `remainingAlways` (popped from the end),
`options` the current pool, `counts` the mutable `matchCounts` object,
`k` the position in the random stream, `acc` the picks so far.
The JS `if (!match)` test fails for `undefined` (empty pool) and for
the empty string (falsy), both mapped to the exhausted error. -/
def pickLoop (rand : Nat → Nat) (allGroups : List (List String))
    (santaNum : Nat) (name : String) :
    Nat → List String → List String → (String → Nat) → Nat → List String →
    Except MatchError (List String × (String → Nat) × Nat)
  | 0, _remAlways, _options, counts, k, acc => .ok (acc, counts, k)
  | need + 1, remAlways, options, counts, k, acc =>
    match remAlways.getLast? with
    | some m =>
      if m = "" then .error (.exhausted (acc.length + 1) santaNum name)
      else
        let toRemove := (allGroups.filter (fun g => decide (m ∈ g))).flatten
        pickLoop rand allGroups santaNum name need remAlways.dropLast
          (options.filter (fun o => decide (o ∉ toRemove)))
          (fun x => if x = m then counts x + 1 else counts x) k (acc ++ [m])
    | none =>
      match pickRandom (rand k) options with
      | none => .error (.exhausted (acc.length + 1) santaNum name)
      | some m =>
        if m = "" then .error (.exhausted (acc.length + 1) santaNum name)
        else
          let toRemove := (allGroups.filter (fun g => decide (m ∈ g))).flatten
          pickLoop rand allGroups santaNum name need []
            (options.filter (fun o => decide (o ∉ toRemove)))
            (fun x => if x = m then counts x + 1 else counts x) (k + 1) (acc ++ [m])

/-- The per-santa `options` pool of strategy A (part_000 lines 152-163),
built from the current `allMatches` accumulator and `matchCounts`. -/
def optionsFor (santaNames : List String) (blockedMatches : Round)
    (allGroups : List (List String)) (maxCount : Nat) (s : Santa)
    (allMatches : Round) (counts : String → Nat) : List String :=
  let name := s.name
  let personalSantas := (allMatches.filter (fun p => decide (name ∈ p.2))).map (·.1)
  let blockedMatchNames := ((blockedMatches.filter (fun p => decide (p.1 = name))).map (·.2)).flatten
  let groupNames := (allGroups.filter (fun g => decide (name ∈ g))).flatten
  let groupMatchNames := ((allMatches.filter (fun p => decide (p.1 ∈ groupNames))).map (·.2)).flatten
  santaNames.filter (fun o => decide (
    o ≠ name ∧ o ∉ s.blocked ∧ o ∉ s.always ∧ o ∉ personalSantas ∧
    o ∉ blockedMatchNames ∧ o ∉ groupNames ∧ o ∉ groupMatchNames ∧
    counts o < maxCount))

/-- Outer `for (const {name, ...} of santaMap.values())` loop of
strategy A's matchSantas (part_000 lines 131-190). -/
def matchSantasGo (rand : Nat → Nat) (santaNames : List String)
    (blockedMatches : Round) (allGroups : List (List String)) (maxCount : Nat) :
    List Santa → (String → Nat) → Nat → Round → Except MatchError Round
  | [], _counts, _k, allMatches => .ok allMatches
  | s :: rest, counts, k, allMatches =>
    let options := optionsFor santaNames blockedMatches allGroups maxCount s allMatches counts
    match pickLoop rand allGroups (allMatches.length + 1) s.name maxCount
        s.always options counts k [] with
    | .error e => .error e
    | .ok (picks, counts', k') =>
      matchSantasGo rand santaNames blockedMatches allGroups maxCount rest
        counts' k' (allMatches ++ [(s.name, picks)])

/-- Strategy A matchSantas (part_000 lines 126-193): greedy randomized
matcher.  `matchCounts` starts at zero for every name
(`Object.fromEntries(santaNames.map(name => [name, 0]))`). -/
def matchSantasA (rand : Nat → Nat) (santas : List Santa)
    (blockedMatches : Round) (allGroups : List (List String))
    (maxCount : Nat) : Except MatchError Round :=
  matchSantasGo rand (santas.map (·.name)) blockedMatches allGroups maxCount
    santas (fun _ => 0) 0 []

/-- retryMatchSantas loop body (part_000 lines 196-215).  The matcher is
abstracted as an oracle indexed by the call number (each JS call draws
fresh randomness) receiving `remainingMatches.flat()`.  Returns the
result together with the total number of matchSantas calls made. -/
def retryGo (matcher : Nat → List (String × List String) → Except MatchError Round)
    (maxRetries : Nat) (remaining : List Round) (attempts : Nat) (calls : Nat) :
    Except MatchError (List Round) × Nat :=
  match matcher calls remaining.flatten with
  | .ok m => (.ok (remaining ++ [m]), calls + 1)
  | .error e =>
    if h : attempts < maxRetries then
      retryGo matcher maxRetries remaining (attempts + 1) (calls + 1)
    else
      match remaining with
      | [] => (.error e, calls + 1)
      | _ :: rest => retryGo matcher maxRetries rest 0 (calls + 1)
  termination_by remaining.length * (maxRetries + 1) + (maxRetries - attempts)
  decreasing_by
  · omega
  · simp only [List.length_cons]
    have h1 : (List.length rest + 1) * (maxRetries + 1)
        = List.length rest * (maxRetries + 1) + (maxRetries + 1) :=
      Nat.succ_mul _ _
    omega

/-- retryMatchSantas (part_000 lines 196-215): retry `maxRetries` times,
then evict the oldest history round (`remainingMatches.shift()`) and
reset the attempt counter; throw the last error once history is empty
and retries are exhausted.  On success returns
`[...remainingMatches, matches]`. -/
def retryMatchSantas (matcher : Nat → List (String × List String) → Except MatchError Round)
    (previousMatches : List Round) (maxRetries : Nat) :
    Except MatchError (List Round) × Nat :=
  retryGo matcher maxRetries previousMatches 0 0

/-- scoreSantaMatches (src/secret-santa.js lines 142-225, identical in
part_001 lines 128-211): one integer score per entry of
`currentMatches`, lower is better.  The `Math.ceil(Math.random() *
santaCount ** 2)` tie-break is the stream parameter `tie`, indexed by
the assignee's position; its JS range is `0..santaCount ^ 2`.
`currentMatches.find(...)[1]` cannot miss at either call site (the
santa is always a key of `currentMatches`), so the model defaults the
missing case to `[]`. -/
def scoreSantaMatches (tie : Nat → Nat) (santa : Santa) (currentMatches : Round)
    (previousMatches : List Round) (allGroups : List (List String)) : List Int :=
  let santaGroups := allGroups.filter (fun g => decide (santa.name ∈ g))
  let santaGroupMates := santaGroups.flatten.filter (fun n => decide (n ≠ santa.name))
  let alreadyMatched := ((currentMatches.find? (fun p => decide (p.1 = santa.name))).map (·.2)).getD []
  let alreadyMatchedGroup :=
    (alreadyMatched.flatMap (fun n => (allGroups.filter (fun g => decide (n ∈ g))).flatten)).filter
      (fun n => decide (n ∉ alreadyMatched))
  let groupMatched := ((currentMatches.filter (fun p => decide (p.1 ∈ santaGroupMates))).map (·.2)).flatten
  let matchedSanta := (currentMatches.filter (fun p => decide (santa.name ∈ p.2))).map (·.1)
  let santaPreviousMatches :=
    (previousMatches.filterMap (fun prev => prev.find? (fun p => decide (p.1 = santa.name)))).map (·.2)
  let unmatchedAlways := santa.always.filter (fun n => decide (n ∉ alreadyMatched))
  let santaCount := currentMatches.length
  let prevMatchCount := santaPreviousMatches.length
  let n : Int := (santaCount : Int)
  currentMatches.enum.map (fun entry =>
    let idx := entry.1
    let assignee := entry.2.1
    ((tie idx : Int)
      + (santaPreviousMatches.enum.map (fun prev =>
          if assignee ∈ prev.2 then n ^ (prev.1 + 3) else 0)).sum
      + (if assignee ∈ alreadyMatchedGroup then n ^ (prevMatchCount + 3) else 0)
      + (if assignee ∈ groupMatched then n ^ (prevMatchCount + 4) else 0)
      + (if assignee ∈ matchedSanta then n ^ (prevMatchCount + 5) else 0)
      + (if assignee ∈ santaGroupMates then n ^ (prevMatchCount + 6) else 0)
      + (if assignee ∈ santa.blocked then n ^ (prevMatchCount + 7) else 0)
      - (if assignee ∈ unmatchedAlways then n ^ (prevMatchCount + 8) else 0)
      + (if assignee ∈ alreadyMatched then n ^ (prevMatchCount + 9) else 0)
      + (if santa.name = assignee then n ^ (prevMatchCount + 10) else 0)))

/-- The schedule of penalty exponents used by scoreSantaMatches for a
santa with `p` surviving previous rounds: one history term per round
(`santaCount ** (index + 3)`, src/secret-santa.js line 178) followed by
the eight fixed tiers `santaCount ** (prevMatchCount + 3 .. + 10)`
(lines 184-220).  The random tie-break is bounded by `santaCount ** 2`
(line 173) and sits below every exponent of this list. -/
def penaltyExponents (p : Nat) : List Nat :=
  (List.range p).map (· + 3) ++
    [p + 3, p + 4, p + 5, p + 6, p + 7, p + 8, p + 9, p + 10]

/-- Total cost of assigning row `i` to column `perm[i]` for each row. -/
def assignmentCost (scores : List (List Int)) (perm : List Nat) : Int :=
  ((scores.zip perm).map (fun rc => (rc.1.getD rc.2 0))).sum

/-- All ways to insert `a` into a list (helper for enumerating
permutations structurally). -/
def insertAll {α : Type} (a : α) : List α → List (List α)
  | [] => [[a]]
  | b :: t => (a :: b :: t) :: (insertAll a t).map (fun l => b :: l)

/-- All permutations of a list, enumerated structurally. -/
def permsOf {α : Type} : List α → List (List α)
  | [] => [[]]
  | a :: t => ((permsOf t).map (insertAll a)).flatten

/-- Executable model of the munkres-js solver on nonempty square
matrices: the minimum-total-cost complete assignment, found by brute
force over all permutations of the row indices.  Output pairs
`(row, column)` like `munkres(scores)`.  It is only ever instantiated
at nonempty square matrices: on an empty matrix munkres-js itself
reads `cost_matrix[0].length` and throws, and on rectangular input it
pads and truncates, neither of which this model reproduces. -/
def munkresModel (scores : List (List Int)) : List (Nat × Nat) :=
  let perms := permsOf (List.range scores.length)
  let best := perms.foldl
    (fun acc perm =>
      match acc with
      | none => some perm
      | some b => if assignmentCost scores perm < assignmentCost scores b then some perm else acc)
    none
  ((best.getD []).enum).map (fun ic => (ic.1, ic.2))

/-- Append one assignee to the row at index `i` of the matches list:
`matches[santaIndex][1].push(santaNames[assigneeIndex])`
(src/secret-santa.js line 241). -/
def pushAssignee (rows : Round) (i : Nat) (assignee : String) : Round :=
  match rows.get? i with
  | none => rows
  | some row => rows.set i (row.1, row.2 ++ [assignee])

/-- Strategy B matchSantas (src/secret-santa.js lines 227-246): for each
of `maxCount` slots, score every santa against every candidate, run the
assignment solver on the score matrix, and push each assigned name.
`tie slot j` is the tie-break stream for santa number `j` in slot
`slot`; `solver` abstracts `munkres`. -/
def matchSantasB (solver : List (List Int) → List (Nat × Nat))
    (tie : Nat → Nat → Nat → Nat) (santas : List Santa)
    (previousMatches : List Round) (allGroups : List (List String))
    (maxCount : Nat) : Round :=
  let santaNames := santas.map (·.name)
  (List.range maxCount).foldl
    (fun cur slot =>
      let scores := santas.enum.map (fun js =>
        scoreSantaMatches (tie slot js.1) js.2 cur previousMatches allGroups)
      let assignments := solver scores
      assignments.foldl
        (fun ms pr => pushAssignee ms pr.1 (santaNames.getD pr.2 ""))
        cur)
    (santaNames.map (fun n => (n, ([] : List String))))

/-- `lastMatches.filter(([_, matches]) => matches.includes(santa))`
(src/secret-santa.js line 252). -/
def brokenMatchesOf (lastMatches : Round) (santa : String) : Round :=
  lastMatches.filter (fun p => decide (santa ∈ p.2))

/-- `lastMatches.find(([name]) => name === santa)[1]`
(src/secret-santa.js line 254); the caller guarantees `santa` is a
giver of the most recent round (validateSantaToRemove, lines 126-136),
so the missing case is defaulted to `[]`. -/
def brokenAssigneesOf (lastMatches : Round) (santa : String) : List String :=
  ((lastMatches.find? (fun p => decide (p.1 = santa))).map (·.2)).getD []

/-- removeSantaFromLastMatches (src/secret-santa.js lines 248-280),
with the solver and the tie-break streams as parameters and the
persisted history passed explicitly.  Returns
`[updatedMatches, brokenSantas]`. -/
def removeSantaFromLastMatches (solver : List (List Int) → List (Nat × Nat))
    (tie : Nat → Nat → Nat) (santa : String) (santaMap : List Santa)
    (previousMatches : List Round) (groups : List (List String)) :
    Round × List String :=
  let lastMatches := (previousMatches.getLast?).getD []
  let olderMatches := previousMatches.dropLast
  let brokenMatches := brokenMatchesOf lastMatches santa
  let brokenSantas := brokenMatches.map (·.1)
  let brokenAssignees := brokenAssigneesOf lastMatches santa
  let brokenAssigneesAsMatches := brokenAssignees.map (fun a => (a, ([] : List String)))
  let scores := brokenSantas.enum.map (fun is =>
    let santaObj := ((santaMap.find? (fun x => decide (x.name = is.2))).getD default)
    scoreSantaMatches (tie is.1) santaObj ((is.2, ([] : List String)) :: brokenAssigneesAsMatches)
      olderMatches groups)
  let assignments := solver (scores.map (fun perSanta => perSanta.tail))
  let updates := assignments.map (fun pr =>
    let broken := brokenMatches.getD pr.1 ("", [])
    (broken.1, (broken.2.filter (fun a => decide (a ≠ santa))) ++ [brokenAssignees.getD pr.2 ""]))
  let updatedMatches := (lastMatches.filter (fun p => decide (p.1 ≠ santa))).map
    (fun mtch => (updates.find? (fun u => decide (u.1 = mtch.1))).getD mtch)
  (updatedMatches, brokenSantas)

/-- Roster construction / validation errors (the five `throw new Error`
messages of src/secret-santa.js lines 87, 99, 104, 110, 120). -/
inductive SantaError where
  | dupName (name : String)
  | invalidEmail (email : String)
  | unknownBlocked (name : String)
  | unknownAlways (name : String)
  | unknownGroup (name : String)
  deriving Repr, DecidableEq

/-- Character class `[A-Z0-9._%+-]` of EMAIL_PATTERN (case-insensitive). -/
def isLocalChar (c : Char) : Bool :=
  c.isAlphanum || c = '.' || c = '_' || c = '%' || c = '+' || c = '-'

/-- Character class `[A-Z0-9.-]` of EMAIL_PATTERN (case-insensitive). -/
def isDomainChar (c : Char) : Bool :=
  c.isAlphanum || c = '.' || c = '-'

/-- `EMAIL_PATTERN.test(email)` with
`EMAIL_PATTERN = /<?([A-Z0-9._%+-]+)@([A-Z0-9.-]+\.[A-Z]{2,})>?/i`
(src/secret-santa.js line 6).  `test` searches anywhere in the string
and the angle brackets are optional, so the pattern holds iff some
position carries `@` preceded by a local-part character and followed by
a nonempty run of domain characters, a dot, and two letters. -/
def emailTest (s : String) : Bool :=
  let cs := s.toList
  let nn := cs.length
  (List.range nn).any (fun i =>
    decide (cs.getD i ' ' = '@') && decide (0 < i) && isLocalChar (cs.getD (i - 1) ' ') &&
    (List.range nn).any (fun j =>
      decide (i + 2 ≤ j) && decide (j + 2 < nn) && decide (cs.getD j ' ' = '.') &&
      (List.range (j - (i + 1))).all (fun t => isDomainChar (cs.getD (i + 1 + t) ' ')) &&
      (cs.getD (j + 1) ' ').isAlpha && (cs.getD (j + 2) ' ').isAlpha))

/-- toSantaMap loop (src/secret-santa.js lines 82-94): insert each santa
keyed by name, throwing on the first repeated name.  A JS `Map` keeps
insertion order, so the result is modelled as the ordered list of
inserted santas. -/
def toSantaMapGo (acc : List Santa) : List Santa → Except SantaError (List Santa)
  | [] => .ok acc
  | s :: rest =>
    if s.name ∈ acc.map (·.name) then .error (.dupName s.name)
    else toSantaMapGo (acc ++ [s]) rest

/-- toSantaMap (src/secret-santa.js lines 82-94). -/
def toSantaMap (santas : List Santa) : Except SantaError (List Santa) :=
  toSantaMapGo [] santas

/-- The checks of one iteration of validateSantaMap's loop
(src/secret-santa.js lines 97-113): email pattern first, then each
blocked name, then each always name, in order. -/
def validateSanta (names : List String) (s : Santa) : Except SantaError Unit :=
  if emailTest s.email = false then .error (.invalidEmail s.email)
  else
    match s.blocked.find? (fun b => decide (b ∉ names)) with
    | some b => .error (.unknownBlocked b)
    | none =>
      match s.always.find? (fun a => decide (a ∉ names)) with
      | some a => .error (.unknownAlways a)
      | none => .ok ()

/-- validateSantaMap (src/secret-santa.js lines 96-114): iterate the
map's values in insertion order and fail at the first violation. -/
def validateSantaMap (names : List String) : List Santa → Except SantaError Unit
  | [] => .ok ()
  | s :: rest =>
    match validateSanta names s with
    | .error e => .error e
    | .ok _ => validateSantaMap names rest

/-- validateGroups (src/secret-santa.js lines 116-124): fail at the
first group member that is not a roster name. -/
def validateGroups (names : List String) (groups : List (List String)) :
    Except SantaError Unit :=
  match groups.flatten.find? (fun n => decide (n ∉ names)) with
  | some n => .error (.unknownGroup n)
  | none => .ok ()

/-- The roster pipeline run at startup (src/secret-santa.js lines
290-292): `toSantaMap`, then `validateSantaMap`, then `validateGroups`,
returning the ordered roster on success. -/
def buildRoster (santas : List Santa) (groups : List (List String)) :
    Except SantaError (List Santa) :=
  match toSantaMap santas with
  | .error e => .error e
  | .ok m =>
    match validateSantaMap (m.map (·.name)) m with
    | .error e => .error e
    | .ok _ =>
      match validateGroups (m.map (·.name)) groups with
      | .error e => .error e
      | .ok _ => .ok m

/-- Validity of a roster with unique names: every email passes the
pattern and every blocked / always / group reference is a roster name.
This is the order-independent content of the validation pass. -/
def RosterValid (santas : List Santa) (groups : List (List String)) : Prop :=
  (∀ s ∈ santas, emailTest s.email = true ∧
    (∀ b ∈ s.blocked, b ∈ santas.map (·.name)) ∧
    (∀ a ∈ s.always, a ∈ santas.map (·.name))) ∧
  (∀ g ∈ groups, ∀ x ∈ g, x ∈ santas.map (·.name))

/-- Number of times `n` occurs as an assignee across all givers of a
round (the quantity tracked by strategy A's `matchCounts`). -/
def assignedCount (r : Round) (n : String) : Nat :=
  (r.map (fun p => p.2.count n)).sum

/-- The `updates` list of removeSantaFromLastMatches
(src/secret-santa.js lines 265-273), as a function of the solver's
assignment pairs. -/
def removalUpdates (A : List (Nat × Nat)) (bm : Round) (brokenAssignees : List String)
    (santa : String) : Round :=
  A.map (fun pr =>
    let broken := bm.getD pr.1 ("", [])
    (broken.1, (broken.2.filter (fun a => decide (a ≠ santa))) ++
      [brokenAssignees.getD pr.2 ""]))

/-- The `updatedMatches` list of removeSantaFromLastMatches
(src/secret-santa.js lines 275-277), as a function of the solver's
assignment pairs. -/
def removalResult (A : List (Nat × Nat)) (lastMatches : Round) (santa : String) : Round :=
  (lastMatches.filter (fun p => decide (p.1 ≠ santa))).map
    (fun mtch => ((removalUpdates A (brokenMatchesOf lastMatches santa)
        (brokenAssigneesOf lastMatches santa) santa).find?
      (fun u => decide (u.1 = mtch.1))).getD mtch)

/-! ### Helper lemmas about strategy A's picking loop -/

theorem pickLoop_ok_prefix (rand : Nat → Nat) (gs : List (List String))
    (sn : Nat) (name : String) :
    ∀ (need : Nat) (remAlways options : List String) (counts : String → Nat)
      (k : Nat) (acc res : List String) (c' : String → Nat) (k' : Nat),
    pickLoop rand gs sn name need remAlways options counts k acc = .ok (res, c', k') →
    ∃ new, res = acc ++ new := by
  intro need
  induction need with
  | zero =>
    intro remAlways options counts k acc res c' k' h
    rw [pickLoop] at h
    injection h with h
    simp only [Prod.mk.injEq] at h
    exact ⟨[], by simp [h.1]⟩
  | succ n ih =>
    intro remAlways options counts k acc res c' k' h
    rw [pickLoop] at h
    split at h
    · split at h
      · exact absurd h (by simp)
      · obtain ⟨new, hnew⟩ := ih _ _ _ _ _ _ _ _ h
        exact ⟨_ :: new, by simpa using hnew⟩
    · split at h
      · exact absurd h (by simp)
      · split at h
        · exact absurd h (by simp)
        · obtain ⟨new, hnew⟩ := ih _ _ _ _ _ _ _ _ h
          exact ⟨_ :: new, by simpa using hnew⟩

theorem pickLoop_empty_always (rand : Nat → Nat) (gs : List (List String))
    (sn : Nat) (name : String) :
    ∀ (need : Nat) (options : List String) (counts : String → Nat)
      (k : Nat) (acc res : List String) (c' : String → Nat) (k' : Nat),
    pickLoop rand gs sn name need [] options counts k acc = .ok (res, c', k') →
    ∃ new, res = acc ++ new ∧ (∀ x ∈ new, x ∈ options) ∧
      (∀ x, c' x = counts x + new.count x) ∧
      ((∀ x ∈ options, ∃ g ∈ gs, x ∈ g) → new.Nodup) := by
  intro need
  induction need with
  | zero =>
    intro options counts k acc res c' k' h
    rw [pickLoop] at h
    injection h with h
    simp only [Prod.mk.injEq] at h
    refine ⟨[], by simp [h.1], by simp, ?_, by simp⟩
    intro x
    simp [← h.2.1]
  | succ n ih =>
    intro options counts k acc res c' k' h
    rw [pickLoop] at h
    simp only [List.getLast?_nil] at h
    split at h
    · exact absurd h (by simp)
    next m hm =>
      split at h
      · exact absurd h (by simp)
      next hne =>
        have hmopts : m ∈ options := by
          have := List.get?_mem hm
          exact this
        obtain ⟨new, hres, hmem, hcnt, hnd⟩ := ih _ _ _ _ _ _ _ h
        refine ⟨m :: new, by simp [hres], ?_, ?_, ?_⟩
        · intro x hx
          rcases List.mem_cons.mp hx with rfl | hx
          · exact hmopts
          · exact (List.mem_filter.mp (hmem x hx)).1
        · intro x
          rw [hcnt x]
          by_cases hxm : x = m
          · subst hxm
            simp only [List.count_cons, if_pos rfl, beq_self_eq_true, if_true]
            omega
          · simp [List.count_cons, hxm, Ne.symm hxm]
        · intro hgrp
          have hnotm : m ∉ (options.filter
              (fun o => decide (o ∉ (gs.filter (fun g => decide (m ∈ g))).flatten))) := by
            intro hmem'
            obtain ⟨g, hg, hmg⟩ := hgrp m hmopts
            have : m ∈ (gs.filter (fun g => decide (m ∈ g))).flatten :=
              List.mem_flatten.mpr ⟨g, List.mem_filter.mpr ⟨hg, by simpa using hmg⟩, hmg⟩
            have := (List.mem_filter.mp hmem').2
            simp only [decide_eq_true_eq] at this
            exact this ‹m ∈ (gs.filter (fun g => decide (m ∈ g))).flatten›
          refine List.nodup_cons.mpr ⟨fun hmn => hnotm (hmem m hmn), ?_⟩
          refine hnd (fun x hx => hgrp x ?_)
          exact (List.mem_filter.mp hx).1

theorem pickLoop_always_included (rand : Nat → Nat) (gs : List (List String))
    (sn : Nat) (name : String) :
    ∀ (need : Nat) (remAlways options : List String) (counts : String → Nat)
      (k : Nat) (acc res : List String) (c' : String → Nat) (k' : Nat),
    pickLoop rand gs sn name need remAlways options counts k acc = .ok (res, c', k') →
    ∀ x ∈ remAlways.reverse.take need, x ∈ res := by
  intro need
  induction need with
  | zero =>
    intro remAlways options counts k acc res c' k' h x hx
    simp at hx
  | succ n ih =>
    intro remAlways options counts k acc res c' k' h x hx
    rw [pickLoop] at h
    split at h
    next m hm =>
      split at h
      · exact absurd h (by simp)
      next hne =>
        have hra : remAlways.dropLast ++ [m] = remAlways :=
          List.dropLast_append_getLast? m hm
        have hrev : remAlways.reverse = m :: remAlways.dropLast.reverse := by
          conv_lhs => rw [← hra]
          simp
        rw [hrev, List.take_succ_cons] at hx
        rcases List.mem_cons.mp hx with rfl | hx
        · obtain ⟨new, hnew⟩ := pickLoop_ok_prefix rand gs sn name _ _ _ _ _ _ _ _ _ h
          rw [hnew]
          simp
        · exact ih _ _ _ _ _ _ _ _ h x hx
    next hm =>
      have : remAlways = [] := by
        cases remAlways with
        | nil => rfl
        | cons a t => simp at hm
      subst this
      simp at hx

theorem pickLoop_nodup (rand : Nat → Nat) (gs : List (List String))
    (sn : Nat) (name : String) :
    ∀ (need : Nat) (remAlways options : List String) (counts : String → Nat)
      (k : Nat) (acc res : List String) (c' : String → Nat) (k' : Nat),
    pickLoop rand gs sn name need remAlways options counts k acc = .ok (res, c', k') →
    remAlways.Nodup →
    (∀ x ∈ options, x ∉ remAlways) →
    (∀ x ∈ options, ∃ g ∈ gs, x ∈ g) →
    acc.Nodup →
    (∀ x ∈ acc, x ∉ remAlways ∧ x ∉ options) →
    res.Nodup := by
  intro need
  induction need with
  | zero =>
    intro remAlways options counts k acc res c' k' h _ _ _ hacc _
    rw [pickLoop] at h
    injection h with h
    simp only [Prod.mk.injEq] at h
    rw [← h.1]
    exact hacc
  | succ n ih =>
    intro remAlways options counts k acc res c' k' h hnd hdisj hgrp hacc haccd
    rw [pickLoop] at h
    split at h
    next m hm =>
      split at h
      · exact absurd h (by simp)
      next hne =>
        have hra : remAlways.dropLast ++ [m] = remAlways :=
          List.dropLast_append_getLast? m hm
        have hmra : m ∈ remAlways := by rw [← hra]; simp
        have hsub : remAlways.dropLast.Sublist remAlways := List.dropLast_sublist _
        refine ih _ _ _ _ _ _ _ _ h (hsub.nodup hnd) ?_ ?_ ?_ ?_
        · intro x hx
          have hxo : x ∈ options := (List.mem_filter.mp hx).1
          exact fun hxd => hdisj x hxo (hsub.subset hxd)
        · intro x hx
          exact hgrp x (List.mem_filter.mp hx).1
        · rw [List.nodup_append]
          refine ⟨hacc, List.nodup_singleton m, fun x hx hxm => ?_⟩
          have hxe : x = m := List.eq_of_mem_singleton hxm
          subst hxe
          exact (haccd x hx).1 hmra
        · intro x hx
          rcases List.mem_append.mp hx with hx | hx
          · obtain ⟨h1, h2⟩ := haccd x hx
            refine ⟨fun hc => h1 (hsub.subset hc), fun hc => h2 (List.mem_filter.mp hc).1⟩
          · rw [List.mem_singleton] at hx
            subst hx
            constructor
            · have : remAlways.dropLast ++ [x] = remAlways := hra
              have hra_nd := hnd
              rw [← this, List.nodup_append] at hra_nd
              intro hc
              exact hra_nd.2.2 hc (List.mem_singleton.mpr rfl)
            · intro hc
              exact hdisj x (List.mem_filter.mp hc).1 hmra
    next hm =>
      have hre : remAlways = [] := by
        cases remAlways with
        | nil => rfl
        | cons a t => simp at hm
      subst hre
      split at h
      · exact absurd h (by simp)
      next m hmr =>
        split at h
        · exact absurd h (by simp)
        next hne =>
          have hmopts : m ∈ options := List.get?_mem hmr
          refine ih _ _ _ _ _ _ _ _ h List.nodup_nil (by simp) ?_ ?_ ?_
          · intro x hx
            exact hgrp x (List.mem_filter.mp hx).1
          · rw [List.nodup_append]
            refine ⟨hacc, List.nodup_singleton m, fun x hx hxm => ?_⟩
            have hxe : x = m := List.eq_of_mem_singleton hxm
            subst hxe
            exact (haccd x hx).2 hmopts
          · intro x hx
            refine ⟨by simp, ?_⟩
            rcases List.mem_append.mp hx with hx | hx
            · exact fun hc => (haccd x hx).2 (List.mem_filter.mp hc).1
            · rw [List.mem_singleton] at hx
              subst hx
              intro hc
              obtain ⟨g, hg, hmg⟩ := hgrp x hmopts
              have hmem2 : x ∈ (gs.filter (fun g => decide (x ∈ g))).flatten :=
                List.mem_flatten.mpr ⟨g, List.mem_filter.mpr ⟨hg, by simpa using hmg⟩, hmg⟩
              have := (List.mem_filter.mp hc).2
              simp only [decide_eq_true_eq] at this
              exact this hmem2

theorem mem_optionsFor {names : List String} {bm : Round} {gs : List (List String)}
    {mc : Nat} {s : Santa} {allM : Round} {counts : String → Nat} {o : String}
    (h : o ∈ optionsFor names bm gs mc s allM counts) :
    o ∈ names ∧ o ≠ s.name ∧ o ∉ s.blocked ∧ o ∉ s.always ∧
    o ∉ (gs.filter (fun g => decide (s.name ∈ g))).flatten ∧ counts o < mc := by
  simp only [optionsFor] at h
  have hmem := List.mem_filter.mp h
  have hp := of_decide_eq_true hmem.2
  exact ⟨hmem.1, hp.1, hp.2.1, hp.2.2.1, hp.2.2.2.2.2.1, hp.2.2.2.2.2.2.2⟩

theorem not_mem_group_of_not_mem_flatten {gs : List (List String)} {n x : String}
    (h : x ∉ (gs.filter (fun g => decide (n ∈ g))).flatten) :
    ∀ g ∈ gs, n ∈ g → x ∉ g := by
  intro g hg hng hxg
  exact h (List.mem_flatten.mpr ⟨g, List.mem_filter.mpr ⟨hg, by simpa using hng⟩, hxg⟩)

theorem matchSantasGo_safe (rand : Nat → Nat) (names : List String) (bm : Round)
    (gs : List (List String)) (mc : Nat) :
    ∀ (sList : List Santa) (counts : String → Nat) (k : Nat) (acc r : Round),
    matchSantasGo rand names bm gs mc sList counts k acc = .ok r →
    (∀ s ∈ sList, s.always = []) →
    ∀ p ∈ r, p ∈ acc ∨ ∃ s ∈ sList, p.1 = s.name ∧
      ∀ x ∈ p.2, x ≠ s.name ∧ x ∉ s.blocked ∧ ∀ g ∈ gs, s.name ∈ g → x ∉ g := by
  intro sList
  induction sList with
  | nil =>
    intro counts k acc r h _ p hp
    rw [matchSantasGo] at h
    injection h with h
    subst h
    exact Or.inl hp
  | cons s rest ih =>
    intro counts k acc r h halw p hp
    rw [matchSantasGo] at h
    split at h
    · exact absurd h (by simp)
    next picks c' k' heq =>
      have hsalw : s.always = [] := halw s (List.mem_cons_self s rest)
      rw [hsalw] at heq
      rcases ih _ _ _ _ h (fun t ht => halw t (List.mem_cons_of_mem s ht)) p hp with hin | ⟨t, ht, hname, hsafe⟩
      · rcases List.mem_append.mp hin with hin | hin
        · exact Or.inl hin
        · right
          have hpe : p = (s.name, picks) := List.eq_of_mem_singleton hin
          refine ⟨s, List.mem_cons_self s rest, by rw [hpe], ?_⟩
          intro x hx
          rw [hpe] at hx
          obtain ⟨new, hres, hmem, -, -⟩ :=
            pickLoop_empty_always rand gs _ _ _ _ _ _ _ _ _ _ heq
          rw [hres] at hx
          simp only [List.nil_append] at hx
          obtain ⟨-, hne, hblk, -, hflat, -⟩ := mem_optionsFor (hmem x hx)
          exact ⟨hne, hblk, not_mem_group_of_not_mem_flatten hflat⟩
      · exact Or.inr ⟨t, List.mem_cons_of_mem s ht, hname, hsafe⟩

theorem matchSantasGo_always (rand : Nat → Nat) (names : List String) (bm : Round)
    (gs : List (List String)) (mc : Nat) :
    ∀ (sList : List Santa) (counts : String → Nat) (k : Nat) (acc r : Round),
    matchSantasGo rand names bm gs mc sList counts k acc = .ok r →
    ∀ p ∈ r, p ∈ acc ∨ ∃ s ∈ sList, p.1 = s.name ∧
      ∀ x ∈ s.always.reverse.take mc, x ∈ p.2 := by
  intro sList
  induction sList with
  | nil =>
    intro counts k acc r h p hp
    rw [matchSantasGo] at h
    injection h with h
    subst h
    exact Or.inl hp
  | cons s rest ih =>
    intro counts k acc r h p hp
    rw [matchSantasGo] at h
    split at h
    · exact absurd h (by simp)
    next picks c' k' heq =>
      rcases ih _ _ _ _ h p hp with hin | ⟨t, ht, hname, halw⟩
      · rcases List.mem_append.mp hin with hin | hin
        · exact Or.inl hin
        · right
          have hpe : p = (s.name, picks) := List.eq_of_mem_singleton hin
          refine ⟨s, List.mem_cons_self s rest, by rw [hpe], ?_⟩
          intro x hx
          rw [hpe]
          exact pickLoop_always_included rand gs _ _ _ _ _ _ _ _ _ _ _ heq x hx
      · exact Or.inr ⟨t, List.mem_cons_of_mem s ht, hname, halw⟩

theorem matchSantasGo_entries_nodup (rand : Nat → Nat) (names : List String) (bm : Round)
    (gs : List (List String)) (mc : Nat) :
    ∀ (sList : List Santa) (counts : String → Nat) (k : Nat) (acc r : Round),
    matchSantasGo rand names bm gs mc sList counts k acc = .ok r →
    (∀ s ∈ sList, s.always.Nodup) →
    (∀ x ∈ names, ∃ g ∈ gs, x ∈ g) →
    (∀ p ∈ acc, p.2.Nodup) →
    ∀ p ∈ r, p.2.Nodup := by
  intro sList
  induction sList with
  | nil =>
    intro counts k acc r h _ _ hacc p hp
    rw [matchSantasGo] at h
    injection h with h
    subst h
    exact hacc p hp
  | cons s rest ih =>
    intro counts k acc r h halw hgrp hacc p hp
    rw [matchSantasGo] at h
    split at h
    · exact absurd h (by simp)
    next picks c' k' heq =>
      refine ih _ _ _ _ h (fun t ht => halw t (List.mem_cons_of_mem s ht)) hgrp ?_ p hp
      intro q hq
      rcases List.mem_append.mp hq with hq | hq
      · exact hacc q hq
      · have hqe : q = (s.name, picks) := List.eq_of_mem_singleton hq
        rw [hqe]
        refine pickLoop_nodup rand gs _ _ _ _ _ _ _ _ _ _ _ heq
          (halw s (List.mem_cons_self s rest)) ?_ ?_ List.nodup_nil (by simp)
        · intro x hx
          exact (mem_optionsFor hx).2.2.2.1
        · intro x hx
          exact hgrp x (mem_optionsFor hx).1

theorem assignedCount_append_single (r : Round) (p : String × List String) (x : String) :
    assignedCount (r ++ [p]) x = assignedCount r x + p.2.count x := by
  simp [assignedCount]

theorem matchSantasGo_cap (rand : Nat → Nat) (names : List String) (bm : Round)
    (gs : List (List String)) (mc : Nat) :
    ∀ (sList : List Santa) (counts : String → Nat) (k : Nat) (acc r : Round),
    matchSantasGo rand names bm gs mc sList counts k acc = .ok r →
    (∀ s ∈ sList, s.always = []) →
    (∀ x ∈ names, ∃ g ∈ gs, x ∈ g) →
    (∀ x, counts x = assignedCount acc x) →
    (∀ x, counts x ≤ mc) →
    ∀ x, assignedCount r x ≤ mc := by
  intro sList
  induction sList with
  | nil =>
    intro counts k acc r h _ _ hcnt hle x
    rw [matchSantasGo] at h
    injection h with h
    subst h
    rw [← hcnt x]
    exact hle x
  | cons s rest ih =>
    intro counts k acc r h halw hgrp hcnt hle x
    rw [matchSantasGo] at h
    split at h
    · exact absurd h (by simp)
    next picks c' k' heq =>
      have hsalw : s.always = [] := halw s (List.mem_cons_self s rest)
      rw [hsalw] at heq
      obtain ⟨new, hres, hmem, hc', hnd⟩ :=
        pickLoop_empty_always rand gs _ _ _ _ _ _ _ _ _ _ heq
      simp only [List.nil_append] at hres
      subst hres
      have hndnew : picks.Nodup := hnd (fun o ho => hgrp o (mem_optionsFor ho).1)
      refine ih _ _ _ _ h (fun t ht => halw t (List.mem_cons_of_mem s ht)) hgrp ?_ ?_ x
      · intro y
        rw [assignedCount_append_single, ← hcnt y, hc' y]
      · intro y
        rw [hc' y]
        have hcle : picks.count y ≤ 1 := List.nodup_iff_count_le_one.mp hndnew y
        rcases Nat.eq_zero_or_pos (picks.count y) with hz | hpos
        · rw [hz]
          exact hle y
        · have hyin : y ∈ picks := List.count_pos_iff.mp hpos
          have := (mem_optionsFor (hmem y hyin)).2.2.2.2.2
          omega

/-! ### Claim C1 -/

/-- Claim C1, counterexample: the claim says neither matcher ever
assigns a giver to themself.  Strategy A grants `always` picks without
any check, so a roster whose only santa lists themself in `always`
yields a successful round in which that giver is assigned to themself. -/
theorem strategyA_self_assignment_via_always :
    matchSantasA (fun _ => 0) [⟨"A", "a@b.cd", [], ["A"]⟩] [] [] 1 =
      .ok [("A", ["A"])] ∧
    ¬ (∀ p ∈ [(("A" : String), ["A"])], ∀ x ∈ p.2, x ≠ p.1) := by
  constructor
  · rfl
  · intro hcl
    exact hcl ("A", ["A"]) (by simp) "A" (by simp) rfl

/-- Claim C1 (amended): in every successful round of strategy A's
matchSantas in which every giver's `always` list is empty, no giver is
assigned themself, a name from their own blocked list, or a member of a
group containing the giver.  (As stated the claim is false: `always`
picks bypass all checks, and strategy B only penalizes forbidden pairs,
e.g. a singleton roster forces a self-assignment.) -/
theorem strategyA_no_self_blocked_groupmate
    (rand : Nat → Nat) (santas : List Santa) (bm : Round)
    (gs : List (List String)) (mc : Nat) (r : Round)
    (hok : matchSantasA rand santas bm gs mc = .ok r)
    (halw : ∀ s ∈ santas, s.always = []) :
    ∀ p ∈ r, ∃ s ∈ santas, p.1 = s.name ∧
      ∀ x ∈ p.2, x ≠ s.name ∧ x ∉ s.blocked ∧ ∀ g ∈ gs, s.name ∈ g → x ∉ g := by
  rw [matchSantasA] at hok
  intro p hp
  rcases matchSantasGo_safe rand (santas.map (·.name)) bm gs mc santas _ _ _ _
      hok halw p hp with hin | h
  · simp at hin
  · exact h

/-- Claim C1 witness: a concrete three-santa run of strategy A with
empty always lists, instantiated at the entry for giver A. -/
theorem strategyA_no_self_blocked_groupmate_witness :
    ∃ s ∈ ([⟨"A", "a@b.cd", [], []⟩, ⟨"B", "b@b.cd", [], []⟩,
            ⟨"C", "c@b.cd", [], []⟩] : List Santa),
      (("A" : String), ["B"]).1 = s.name ∧
      ∀ x ∈ (("A" : String), ["B"]).2, x ≠ s.name ∧ x ∉ s.blocked ∧
        ∀ g ∈ ([] : List (List String)), s.name ∈ g → x ∉ g :=
  strategyA_no_self_blocked_groupmate (fun _ => 0)
    [⟨"A", "a@b.cd", [], []⟩, ⟨"B", "b@b.cd", [], []⟩, ⟨"C", "c@b.cd", [], []⟩]
    [] [] 1 [("A", ["B"]), ("B", ["C"]), ("C", ["A"])] (by rfl) (by decide)
    ("A", ["B"]) (by decide)

/-! ### Claim C4 -/

/-- Claim C4: in strategy A, `always` picks are popped from the end of
the list and granted without being checked against the options pool,
blocked list, groups or cap; hence in every successful strategy-A round
each giver's assignee list contains every name among the last
`min count |always|` entries of their always list (all of it when
`|always| ≤ count`), i.e. every element of `always.reverse.take count`. -/
theorem strategyA_always_served
    (rand : Nat → Nat) (santas : List Santa) (bm : Round)
    (gs : List (List String)) (mc : Nat) (r : Round)
    (hok : matchSantasA rand santas bm gs mc = .ok r) :
    ∀ p ∈ r, ∃ s ∈ santas, p.1 = s.name ∧
      ∀ x ∈ s.always.reverse.take mc, x ∈ p.2 := by
  rw [matchSantasA] at hok
  intro p hp
  rcases matchSantasGo_always rand (santas.map (·.name)) bm gs mc santas _ _ _ _
      hok p hp with hin | h
  · simp at hin
  · exact h

/-- Claim C4 witness: giver A has `always = ["B"]` and indeed receives
B in the concrete successful round; instantiated at A's entry. -/
theorem strategyA_always_served_witness :
    ∃ s ∈ ([⟨"A", "a@b.cd", [], ["B"]⟩, ⟨"B", "b@b.cd", [], []⟩,
            ⟨"C", "c@b.cd", [], []⟩] : List Santa),
      (("A" : String), ["B"]).1 = s.name ∧
      ∀ x ∈ s.always.reverse.take 1, x ∈ (("A" : String), ["B"]).2 :=
  strategyA_always_served (fun _ => 0)
    [⟨"A", "a@b.cd", [], ["B"]⟩, ⟨"B", "b@b.cd", [], []⟩, ⟨"C", "c@b.cd", [], []⟩]
    [] [] 1 [("A", ["B"]), ("B", ["C"]), ("C", ["A"])] (by rfl)
    ("A", ["B"]) (by decide)

/-! ### Claim C5 -/

/-- Claim C5, counterexample: the claim says every successful
strategy-A round has duplicate-free assignee lists for any roster and
groups.  After a pick, only the members of groups containing the pick
are removed from the pool, so a group-less pick can be drawn again:
with three santas, no groups and count 2, the run below succeeds and
gives A the list `["B", "B"]`. -/
theorem strategyA_duplicate_assignees :
    matchSantasA (fun _ => 0)
      [⟨"A", "a@b.cd", [], []⟩, ⟨"B", "b@b.cd", [], []⟩, ⟨"C", "c@b.cd", [], []⟩]
      [] [] 2 =
      .ok [("A", ["B", "B"]), ("B", ["C", "C"]), ("C", ["A", "A"])] ∧
    ¬ (∀ p ∈ [(("A" : String), ["B", "B"]), ("B", ["C", "C"]), ("C", ["A", "A"])],
        p.2.Nodup) := by
  constructor
  · rfl
  · intro hcl
    have := hcl ("A", ["B", "B"]) (by simp)
    simp at this

/-- Claim C5 (amended): in every successful strategy-A round, each
giver's assignee list is duplicate-free provided every roster name
belongs to at least one group (so each random pick evicts itself from
the pool) and no giver's always list itself contains duplicates. -/
theorem strategyA_assignees_nodup
    (rand : Nat → Nat) (santas : List Santa) (bm : Round)
    (gs : List (List String)) (mc : Nat) (r : Round)
    (hok : matchSantasA rand santas bm gs mc = .ok r)
    (halw : ∀ s ∈ santas, s.always.Nodup)
    (hgrp : ∀ x ∈ santas.map (·.name), ∃ g ∈ gs, x ∈ g) :
    ∀ p ∈ r, p.2.Nodup := by
  rw [matchSantasA] at hok
  exact matchSantasGo_entries_nodup rand (santas.map (·.name)) bm gs mc santas _ _ _ _
    hok halw hgrp (by simp)

/-- Claim C5 witness: four santas fully covered by two groups, count 1;
the amended theorem applied to giver A's entry of the concrete
successful round. -/
theorem strategyA_assignees_nodup_witness :
    ((("A" : String), ["C"]).2).Nodup :=
  strategyA_assignees_nodup (fun _ => 0)
    [⟨"A", "a@b.cd", [], []⟩, ⟨"B", "b@b.cd", [], []⟩,
     ⟨"C", "c@b.cd", [], []⟩, ⟨"D", "d@b.cd", [], []⟩]
    [] [["A", "B"], ["C", "D"]] 1
    [("A", ["C"]), ("B", ["D"]), ("C", ["B"]), ("D", ["A"])]
    (by rfl) (by decide) (by decide) ("A", ["C"]) (by decide)

/-! ### Claim C6 -/

/-- Claim C6, counterexample: the claim says no name is ever assigned
more than `count` times in aggregate.  The cap `matchCounts[option] <
maxCount` is only consulted when a giver's options pool is built, not
re-checked between that giver's picks, so a group-less name can be
picked twice by one giver after already being at `count - 1`: below,
C is assigned three times with `count = 2`. -/
theorem strategyA_cap_exceeded :
    matchSantasA (fun k => if k = 1 then 1 else 0)
      [⟨"A", "a@b.cd", [], []⟩, ⟨"B", "b@b.cd", [], []⟩,
       ⟨"C", "c@b.cd", [], []⟩, ⟨"D", "d@b.cd", [], []⟩]
      [] [] 2 =
      .ok [("A", ["B", "C"]), ("B", ["C", "C"]), ("C", ["D", "D"]), ("D", ["A", "A"])] ∧
    ¬ (assignedCount
        [("A", ["B", "C"]), ("B", ["C", "C"]), ("C", ["D", "D"]), ("D", ["A", "A"])]
        "C" ≤ 2) := by
  constructor
  · rfl
  · decide

/-- Claim C6 (amended): in every successful strategy-A round, every
name appears as an assignee at most `count` times in aggregate,
provided every roster name belongs to at least one group and every
always list is empty (an `always` pick bypasses the cap entirely, and
a group-less pick can be repeated past the cap by a single giver). -/
theorem strategyA_cap_respected
    (rand : Nat → Nat) (santas : List Santa) (bm : Round)
    (gs : List (List String)) (mc : Nat) (r : Round)
    (hok : matchSantasA rand santas bm gs mc = .ok r)
    (halw : ∀ s ∈ santas, s.always = [])
    (hgrp : ∀ x ∈ santas.map (·.name), ∃ g ∈ gs, x ∈ g) :
    ∀ x, assignedCount r x ≤ mc := by
  rw [matchSantasA] at hok
  refine matchSantasGo_cap rand (santas.map (·.name)) bm gs mc santas _ _ _ _
    hok halw hgrp ?_ ?_
  · intro x
    simp [assignedCount]
  · intro x
    exact Nat.zero_le mc

/-- Claim C6 witness: the grouped four-santa run, in which the cap
`count = 1` is indeed respected for the name C. -/
theorem strategyA_cap_respected_witness :
    assignedCount
      [(("A" : String), ["C"]), ("B", ["D"]), ("C", ["B"]), ("D", ["A"])] "C" ≤ 1 :=
  strategyA_cap_respected (fun _ => 0)
    [⟨"A", "a@b.cd", [], []⟩, ⟨"B", "b@b.cd", [], []⟩,
     ⟨"C", "c@b.cd", [], []⟩, ⟨"D", "d@b.cd", [], []⟩]
    [] [["A", "B"], ["C", "D"]] 1
    [("A", ["C"]), ("B", ["D"]), ("C", ["B"]), ("D", ["A"])]
    (by rfl) (by decide) (by decide) "C"

/-! ### Claim C3 -/

theorem retryGo_spec (matcher : Nat → List (String × List String) → Except MatchError Round)
    (M : Nat) :
    ∀ (rem : List Round) (att cls : Nat), att ≤ M →
    (retryGo matcher M rem att cls).2 ≤ cls + (M + 1 - att) + rem.length * (M + 1) ∧
    (∀ e c, retryGo matcher M rem att cls = (.error e, c) →
      matcher (c - 1) [] = .error e ∧ cls < c) := by
  intro rem att cls
  induction rem, att, cls using retryGo.induct matcher M with
  | case1 rem att cls m hm =>
    intro hle
    rw [retryGo]
    simp only [hm]
    refine ⟨by omega, ?_⟩
    intro e c hc
    simp at hc
  | case2 rem att cls e he hlt ih =>
    intro hle
    rw [retryGo]
    simp only [he, dif_pos hlt]
    obtain ⟨ih1, ih2⟩ := ih (by omega)
    refine ⟨by omega, ?_⟩
    intro e' c hc
    obtain ⟨h1, h2⟩ := ih2 e' c hc
    exact ⟨h1, by omega⟩
  | case3 att cls e hge he =>
    intro hle
    rw [retryGo]
    simp only [he, dif_neg hge]
    refine ⟨by simp; omega, ?_⟩
    intro e' c hc
    simp only [Prod.mk.injEq, Except.error.injEq] at hc
    obtain ⟨he', hc'⟩ := hc
    subst he'
    subst hc'
    refine ⟨?_, by omega⟩
    simpa using he
  | case4 att cls e hge head rest he ih =>
    intro hle
    rw [retryGo]
    simp only [he, dif_neg hge]
    obtain ⟨ih1, ih2⟩ := ih (Nat.zero_le M)
    constructor
    · have hmul : (rest.length + 1) * (M + 1) = rest.length * (M + 1) + (M + 1) :=
        Nat.succ_mul _ _
      simp only [List.length_cons]
      omega
    · intro e' c hc
      obtain ⟨h1, h2⟩ := ih2 e' c hc
      exact ⟨h1, by omega⟩

/-- Claim C3: for every history and non-negative maxRetries, the retry
wrapper makes at most `(maxRetries + 1) * (|history| + 1)` matcher
calls (retrying up to maxRetries per history level, then evicting the
oldest round and resetting the counter), and when it gives up — which
can only happen with the working history empty and retries exhausted —
it returns the error produced by the matcher's final call, made on the
empty history, rather than looping or swallowing it. -/
theorem retryMatchSantas_bounded
    (matcher : Nat → List (String × List String) → Except MatchError Round)
    (prev : List Round) (M : Nat) :
    (retryMatchSantas matcher prev M).2 ≤ (M + 1) * (prev.length + 1) ∧
    ∀ e c, retryMatchSantas matcher prev M = (.error e, c) →
      matcher (c - 1) [] = .error e := by
  have h := retryGo_spec matcher M prev 0 0 (Nat.zero_le M)
  rw [retryMatchSantas]
  constructor
  · have h1 := h.1
    have hmul : (M + 1) * (prev.length + 1) = prev.length * (M + 1) + (M + 1) := by
      ring
    omega
  · intro e c hc
    exact (h.2 e c hc).1

/-- Claim C3 witness: a matcher that always fails, one history round,
maxRetries 1: the wrapper stops after exactly 4 = (1+1)*(1+1) calls and
reports the final error, whose last call saw the empty history. -/
theorem retryMatchSantas_bounded_witness :
    (fun (_ : Nat) (_ : List (String × List String)) =>
        (.error (.exhausted 1 1 "A") : Except MatchError Round)) 3 [] =
      .error (.exhausted 1 1 "A") :=
  (retryMatchSantas_bounded
      (fun _ _ => .error (.exhausted 1 1 "A")) [[("A", ["B"])]] 1).2
    (.exhausted 1 1 "A") 4 (by simp [retryMatchSantas, retryGo])

/-! ### Claim C2 -/

theorem penaltyExponents_nodup (p : Nat) : (penaltyExponents p).Nodup := by
  rw [penaltyExponents, List.nodup_append]
  refine ⟨(List.nodup_range p).map (fun a b => by omega), ?_, ?_⟩
  · simp only [List.nodup_cons, List.mem_cons, List.mem_singleton, List.not_mem_nil,
      List.nodup_nil, and_true, not_false_iff, or_false]
    omega
  · intro x hx hx2
    obtain ⟨i, hi, rfl⟩ := List.mem_map.mp hx
    rw [List.mem_range] at hi
    simp only [List.mem_cons, List.mem_singleton, List.not_mem_nil, or_false] at hx2
    omega

theorem penaltyExponents_ge_three (p : Nat) : ∀ e ∈ penaltyExponents p, 3 ≤ e := by
  intro e he
  rw [penaltyExponents] at he
  rcases List.mem_append.mp he with he | he
  · obtain ⟨i, -, rfl⟩ := List.mem_map.mp he
    omega
  · simp only [List.mem_cons, List.mem_singleton, List.not_mem_nil, or_false] at he
    omega

theorem penalty_dominance_main (n p e : Nat) (h2 : 2 ≤ n) (he : e ∈ penaltyExponents p) :
    n ^ 2 + (((penaltyExponents p).filter (· < e)).map (fun j => n ^ j)).sum < n ^ e := by
  have hnd : ((penaltyExponents p).filter (· < e)).Nodup :=
    (penaltyExponents_nodup p).filter _
  have hsum : (((penaltyExponents p).filter (· < e)).map (fun j => n ^ j)).sum =
      ((penaltyExponents p).filter (· < e)).toFinset.sum (fun j => n ^ j) :=
    (List.sum_toFinset _ hnd).symm
  have h2notin : 2 ∉ ((penaltyExponents p).filter (· < e)).toFinset := by
    rw [List.mem_toFinset]
    intro hmem
    have := penaltyExponents_ge_three p 2 (List.mem_of_mem_filter hmem)
    omega
  have hins : n ^ 2 + ((penaltyExponents p).filter (· < e)).toFinset.sum (fun j => n ^ j) =
      (insert 2 ((penaltyExponents p).filter (· < e)).toFinset).sum (fun j => n ^ j) :=
    (Finset.sum_insert h2notin).symm
  rw [hsum, hins]
  apply Nat.geomSum_lt h2
  intro k hk
  rcases Finset.mem_insert.mp hk with rfl | hk
  · have := penaltyExponents_ge_three p e he
    omega
  · rw [List.mem_toFinset] at hk
    have := List.of_mem_filter hk
    simpa using this

/-- Claim C2, counterexample: the dominance property is claimed for
every round size `n`.  With a single participant (`n = 1`, reachable:
matchSantas over a singleton roster builds a 1-entry currentMatches)
every tier weight is `1 ^ k = 1`, so the self-assignment tier
(exponent `prevMatchCount + 10`) does not strictly exceed the stack of
all lower-priority penalties. -/
theorem penalty_dominance_fails_for_one_participant :
    10 ∈ penaltyExponents 0 ∧
    ¬ (1 ^ 2 + (((penaltyExponents 0).filter (· < 10)).map (fun j => 1 ^ j)).sum
        < 1 ^ 10) := by
  decide

/-- Claim C2 (amended): for rounds with at least two participants
(`n ≥ 2`), the penalty schedule of scoreSantaMatches uses pairwise
distinct exponents, and every tier weight `n ^ e` strictly exceeds the
sum of the maximal random tie-break (`n ^ 2`) plus every
simultaneously applicable penalty of lower exponent (one per history
round plus each lower fixed tier), so a higher-priority penalty always
dominates any stack of lower-priority ones.  As stated the claim fails
for `n = 1`. -/
theorem penalty_tier_dominance (n p e : Nat) (h2 : 2 ≤ n) (he : e ∈ penaltyExponents p) :
    (penaltyExponents p).Nodup ∧
    n ^ 2 + (((penaltyExponents p).filter (· < e)).map (fun j => n ^ j)).sum < n ^ e :=
  ⟨penaltyExponents_nodup p, penalty_dominance_main n p e h2 he⟩

/-- Claim C2 witness: two participants, one previous round, the
self-assignment tier (exponent 11). -/
theorem penalty_tier_dominance_witness :
    (penaltyExponents 1).Nodup ∧
    2 ^ 2 + (((penaltyExponents 1).filter (· < 11)).map (fun j => 2 ^ j)).sum < 2 ^ 11 :=
  penalty_tier_dominance 2 1 11 (by decide) (by decide)

/-! ### Roster construction and validation lemmas (claims C8 and C9) -/

theorem toSantaMapGo_ok (santas : List Santa) :
    ∀ (acc : List Santa), (acc.map (·.name)).Nodup →
    ∀ m, (toSantaMapGo acc santas = .ok m ↔
      (((acc ++ santas).map (·.name)).Nodup ∧ m = acc ++ santas)) := by
  induction santas with
  | nil =>
    intro acc hacc m
    rw [toSantaMapGo]
    simp [hacc, eq_comm]
  | cons s rest ih =>
    intro acc hacc m
    rw [toSantaMapGo]
    split
    next hin =>
      simp only [List.map_append, List.map_cons, List.nodup_append]
      constructor
      · intro h
        cases h
      · rintro ⟨⟨-, -, hdisj⟩, -⟩
        exact (hdisj hin (List.mem_cons_self _ _)).elim
    next hnin =>
      have hacc' : ((acc ++ [s]).map (·.name)).Nodup := by
        rw [List.map_append, List.nodup_append]
        refine ⟨hacc, by simp, ?_⟩
        intro x hx hxs
        have hxe : x = s.name := by simpa using hxs
        subst hxe
        exact hnin hx
      have := ih (acc ++ [s]) hacc' m
      rw [this]
      simp [List.append_assoc]

theorem toSantaMapGo_error (santas : List Santa) :
    ∀ (acc : List Santa) (e : SantaError), toSantaMapGo acc santas = .error e →
    ∃ d, e = .dupName d ∧ 2 ≤ ((acc ++ santas).map (·.name)).count d := by
  induction santas with
  | nil =>
    intro acc e h
    rw [toSantaMapGo] at h
    cases h
  | cons s rest ih =>
    intro acc e h
    rw [toSantaMapGo] at h
    split at h
    next hin =>
      injection h with h
      refine ⟨s.name, h.symm, ?_⟩
      have h1 : 1 ≤ (acc.map (·.name)).count s.name :=
        List.count_pos_iff.mpr hin
      have h2 : ((acc ++ s :: rest).map (·.name)).count s.name =
          (acc.map (·.name)).count s.name + ((s :: rest).map (·.name)).count s.name := by
        simp [List.count_append]
      have h3 : 1 ≤ ((s :: rest).map (·.name)).count s.name := by
        apply List.count_pos_iff.mpr
        simp
      omega
    next hnin =>
      obtain ⟨d, hd, hcnt⟩ := ih (acc ++ [s]) e h
      refine ⟨d, hd, ?_⟩
      rw [List.append_assoc] at hcnt
      simpa using hcnt

theorem validateSanta_ok (names : List String) (s : Santa) :
    validateSanta names s = .ok () ↔
    (emailTest s.email = true ∧ (∀ b ∈ s.blocked, b ∈ names) ∧
      (∀ a ∈ s.always, a ∈ names)) := by
  rw [validateSanta]
  split
  next hmail =>
    constructor
    · intro h
      cases h
    · rintro ⟨h1, -, -⟩
      rw [h1] at hmail
      cases hmail
  next hmail =>
    have hmail' : emailTest s.email = true := by
      revert hmail
      cases emailTest s.email <;> simp
    split
    next b hb =>
      constructor
      · intro h
        cases h
      · rintro ⟨-, h2, -⟩
        have hbb := List.find?_some hb
        have hbm := List.mem_of_find?_eq_some hb
        simp only [decide_eq_true_eq] at hbb
        exact absurd (h2 b hbm) hbb
    next hb =>
      split
      next a ha =>
        constructor
        · intro h
          cases h
        · rintro ⟨-, -, h3⟩
          have haa := List.find?_some ha
          have ham := List.mem_of_find?_eq_some ha
          simp only [decide_eq_true_eq] at haa
          exact absurd (h3 a ham) haa
      next ha =>
        constructor
        · intro _
          refine ⟨hmail', ?_, ?_⟩
          · intro b hbm
            have := List.find?_eq_none.mp hb b hbm
            simpa using this
          · intro a ham
            have := List.find?_eq_none.mp ha a ham
            simpa using this
        · intro _
          rfl

theorem validateSanta_error (names : List String) (s : Santa) (e : SantaError)
    (h : validateSanta names s = .error e) :
    (e = .invalidEmail s.email ∧ emailTest s.email = false) ∨
    (∃ b, e = .unknownBlocked b ∧ b ∈ s.blocked ∧ b ∉ names) ∨
    (∃ a, e = .unknownAlways a ∧ a ∈ s.always ∧ a ∉ names) := by
  rw [validateSanta] at h
  split at h
  next hmail =>
    injection h with h
    exact Or.inl ⟨h.symm, hmail⟩
  next hmail =>
    split at h
    next b hb =>
      injection h with h
      refine Or.inr (Or.inl ⟨b, h.symm, List.mem_of_find?_eq_some hb, ?_⟩)
      have := List.find?_some hb
      simpa using this
    next hb =>
      split at h
      next a ha =>
        injection h with h
        refine Or.inr (Or.inr ⟨a, h.symm, List.mem_of_find?_eq_some ha, ?_⟩)
        have := List.find?_some ha
        simpa using this
      next ha =>
        cases h

theorem validateSantaMap_ok (names : List String) (l : List Santa) :
    validateSantaMap names l = .ok () ↔
    ∀ s ∈ l, emailTest s.email = true ∧ (∀ b ∈ s.blocked, b ∈ names) ∧
      (∀ a ∈ s.always, a ∈ names) := by
  induction l with
  | nil =>
    rw [validateSantaMap]
    simp
  | cons s rest ih =>
    rw [validateSantaMap]
    split
    next e he =>
      constructor
      · intro h
        cases h
      · intro h
        have := (validateSanta_ok names s).mpr (h s (List.mem_cons_self s rest))
        rw [this] at he
        cases he
    next u hu =>
      cases u
      rw [ih]
      constructor
      · intro h
        intro t ht
        rcases List.mem_cons.mp ht with rfl | ht
        · exact (validateSanta_ok names t).mp hu
        · exact h t ht
      · intro h t ht
        exact h t (List.mem_cons_of_mem s ht)

theorem validateSantaMap_error (names : List String) (l : List Santa) (e : SantaError)
    (h : validateSantaMap names l = .error e) :
    ∃ s ∈ l, validateSanta names s = .error e := by
  induction l with
  | nil =>
    rw [validateSantaMap] at h
    cases h
  | cons s rest ih =>
    rw [validateSantaMap] at h
    split at h
    next e' he =>
      injection h with h
      subst h
      exact ⟨s, List.mem_cons_self s rest, he⟩
    next u hu =>
      obtain ⟨t, ht, hte⟩ := ih h
      exact ⟨t, List.mem_cons_of_mem s ht, hte⟩

theorem validateGroups_ok (names : List String) (groups : List (List String)) :
    validateGroups names groups = .ok () ↔
    ∀ g ∈ groups, ∀ x ∈ g, x ∈ names := by
  rw [validateGroups]
  split
  next n hn =>
    constructor
    · intro h
      cases h
    · intro h
      have hmem := List.mem_of_find?_eq_some hn
      have hpred := List.find?_some hn
      simp only [decide_eq_true_eq] at hpred
      obtain ⟨g, hg, hng⟩ := List.mem_flatten.mp hmem
      exact absurd (h g hg n hng) hpred
  next hn =>
    simp only [true_iff]
    intro g hg x hx
    have := List.find?_eq_none.mp hn x (List.mem_flatten.mpr ⟨g, hg, hx⟩)
    simpa using this

theorem validateGroups_error (names : List String) (groups : List (List String))
    (e : SantaError) (h : validateGroups names groups = .error e) :
    ∃ n, e = .unknownGroup n ∧ n ∈ groups.flatten ∧ n ∉ names := by
  rw [validateGroups] at h
  split at h
  next n hn =>
    injection h with h
    refine ⟨n, h.symm, List.mem_of_find?_eq_some hn, ?_⟩
    have := List.find?_some hn
    simpa using this
  next hn =>
    cases h

theorem buildRoster_ok (santas : List Santa) (groups : List (List String)) (m : List Santa) :
    buildRoster santas groups = .ok m ↔
    (m = santas ∧ (santas.map (·.name)).Nodup ∧ RosterValid santas groups) := by
  rw [buildRoster]
  constructor
  · intro h
    split at h
    · cases h
    next m' hm' =>
      have := (toSantaMapGo_ok santas [] (by simp) m').mp hm'
      simp only [List.nil_append] at this
      obtain ⟨hnd, rfl⟩ := this
      split at h
      · cases h
      next u hu =>
        split at h
        · cases h
        next u' hu' =>
          injection h with h
          subst h
          cases u
          cases u'
          exact ⟨rfl, hnd,
            (validateSantaMap_ok _ _).mp hu, (validateGroups_ok _ _).mp hu'⟩
  · rintro ⟨heq, hnd, hrv⟩
    rw [heq]
    have hval := hrv.1
    have hgrp := hrv.2
    have h1 : toSantaMap santas = .ok santas := by
      rw [toSantaMap]
      exact (toSantaMapGo_ok santas [] (by simp) santas).mpr ⟨by simpa using hnd, by simp⟩
    have h2 : validateSantaMap (santas.map (·.name)) santas = .ok () :=
      (validateSantaMap_ok _ _).mpr hval
    have h3 : validateGroups (santas.map (·.name)) groups = .ok () :=
      (validateGroups_ok _ _).mpr hgrp
    simp only [h1, h2, h3]

theorem buildRoster_error_email (santas : List Santa) (groups : List (List String))
    (em : String) (h : buildRoster santas groups = .error (.invalidEmail em)) :
    ∃ s ∈ santas, s.email = em ∧ emailTest em = false := by
  rw [buildRoster] at h
  split at h
  next e' he =>
    injection h with h
    subst h
    obtain ⟨d, hd, -⟩ := toSantaMapGo_error santas [] _ he
    cases hd
  next m' hm' =>
    have := (toSantaMapGo_ok santas [] (by simp) m').mp hm'
    simp only [List.nil_append] at this
    obtain ⟨-, rfl⟩ := this
    split at h
    next e' he =>
      injection h with h
      subst h
      obtain ⟨s, hs, hse⟩ := validateSantaMap_error _ _ _ he
      rcases validateSanta_error _ _ _ hse with ⟨h1, h2⟩ | ⟨b, hb, -⟩ | ⟨a, ha, -⟩
      · injection h1 with h1
        exact ⟨s, hs, h1.symm, h1 ▸ h2⟩
      · cases hb
      · cases ha
    next u hu =>
      split at h
      next e' he =>
        injection h with h
        subst h
        obtain ⟨n, hn, -⟩ := validateGroups_error _ _ _ he
        cases hn
      · cases h

theorem buildRoster_error_ref (santas : List Santa) (groups : List (List String))
    (e : SantaError) (h : buildRoster santas groups = .error e) :
    (∀ b, e = .unknownBlocked b → ∃ s ∈ santas, b ∈ s.blocked ∧ b ∉ santas.map (·.name)) ∧
    (∀ a, e = .unknownAlways a → ∃ s ∈ santas, a ∈ s.always ∧ a ∉ santas.map (·.name)) ∧
    (∀ n, e = .unknownGroup n → n ∈ groups.flatten ∧ n ∉ santas.map (·.name)) := by
  rw [buildRoster] at h
  split at h
  next e' he =>
    injection h with h
    subst h
    obtain ⟨d, hd, -⟩ := toSantaMapGo_error santas [] _ he
    subst hd
    refine ⟨?_, ?_, ?_⟩ <;> (intro x hx; cases hx)
  next m' hm' =>
    have := (toSantaMapGo_ok santas [] (by simp) m').mp hm'
    simp only [List.nil_append] at this
    obtain ⟨-, rfl⟩ := this
    split at h
    next e' he =>
      injection h with h
      subst h
      obtain ⟨s, hs, hse⟩ := validateSantaMap_error _ _ _ he
      rcases validateSanta_error _ _ _ hse with ⟨h1, -⟩ | ⟨b, hb, hbm, hbn⟩ | ⟨a, ha, ham, han⟩
      · subst h1
        refine ⟨?_, ?_, ?_⟩ <;> (intro x hx; cases hx)
      · subst hb
        refine ⟨?_, ?_, ?_⟩
        · intro x hx
          injection hx with hx
          subst hx
          exact ⟨s, hs, hbm, hbn⟩
        · intro x hx
          cases hx
        · intro x hx
          cases hx
      · subst ha
        refine ⟨?_, ?_, ?_⟩
        · intro x hx
          cases hx
        · intro x hx
          injection hx with hx
          subst hx
          exact ⟨s, hs, ham, han⟩
        · intro x hx
          cases hx
    next u hu =>
      split at h
      next e' he =>
        injection h with h
        subst h
        obtain ⟨n, hn, hnm, hnn⟩ := validateGroups_error _ _ _ he
        subst hn
        refine ⟨?_, ?_, ?_⟩
        · intro x hx
          cases hx
        · intro x hx
          cases hx
        · intro x hx
          injection hx with hx
          subst hx
          exact ⟨hnm, hnn⟩
      · cases h

/-! ### Claim C8 -/

/-- Claim C8, counterexample: the claim says validation "fails with an
invalid-email error if any participant's email does not match the
pattern".  With A blocking the unknown name Ghost and B carrying an
invalid email, validation walks the santas in order and reports the
unknown-reference error for A even though B's email is invalid, so the
conditional about the reported error kind is false under mixed
violations. -/
theorem validation_error_kind_mismatch :
    buildRoster [⟨"A", "a@b.cd", ["Ghost"], []⟩, ⟨"B", "nomail", [], []⟩] [] =
      .error (.unknownBlocked "Ghost") ∧
    emailTest "nomail" = false ∧
    ∀ em, (SantaError.unknownBlocked "Ghost") ≠ .invalidEmail em := by
  refine ⟨by rfl, by decide, ?_⟩
  intro em h
  cases h

/-- Claim C8 (amended): roster construction fails with a
duplicate-name error exactly when a name repeats (and otherwise
returns the ordered roster unchanged); for duplicate-free rosters the
full pipeline succeeds exactly when every email matches the pattern
and every blocked / always / group reference is a roster name; and
each error kind, when reported, does identify a real violation of its
kind.  (As stated the claim is false only in that under simultaneous
violations of different kinds the single reported error is the first
one in iteration order, not every applicable kind.) -/
theorem roster_validation_characterization (santas : List Santa)
    (groups : List (List String)) :
    (toSantaMap santas = .ok santas ↔ (santas.map (·.name)).Nodup) ∧
    (∀ e, toSantaMap santas = .error e →
      ∃ d, e = .dupName d ∧ 2 ≤ (santas.map (·.name)).count d) ∧
    (∀ m, buildRoster santas groups = .ok m ↔
      (m = santas ∧ (santas.map (·.name)).Nodup ∧ RosterValid santas groups)) ∧
    (∀ em, buildRoster santas groups = .error (.invalidEmail em) →
      ∃ s ∈ santas, s.email = em ∧ emailTest em = false) ∧
    (∀ b, buildRoster santas groups = .error (.unknownBlocked b) →
      ∃ s ∈ santas, b ∈ s.blocked ∧ b ∉ santas.map (·.name)) ∧
    (∀ a, buildRoster santas groups = .error (.unknownAlways a) →
      ∃ s ∈ santas, a ∈ s.always ∧ a ∉ santas.map (·.name)) ∧
    (∀ g, buildRoster santas groups = .error (.unknownGroup g) →
      g ∈ groups.flatten ∧ g ∉ santas.map (·.name)) := by
  refine ⟨?_, ?_, ?_, ?_, ?_, ?_, ?_⟩
  · rw [toSantaMap]
    rw [toSantaMapGo_ok santas [] (by simp) santas]
    simp
  · intro e he
    rw [toSantaMap] at he
    obtain ⟨d, hd, hcnt⟩ := toSantaMapGo_error santas [] e he
    exact ⟨d, hd, by simpa using hcnt⟩
  · intro m
    exact buildRoster_ok santas groups m
  · intro em
    exact buildRoster_error_email santas groups em
  · intro b hb
    exact (buildRoster_error_ref santas groups _ hb).1 b rfl
  · intro a ha
    exact (buildRoster_error_ref santas groups _ ha).2.1 a rfl
  · intro g hg
    exact (buildRoster_error_ref santas groups _ hg).2.2 g rfl

/-- Claim C8 witness: a concrete valid two-santa roster with one group,
for which the pipeline succeeds and returns the roster in order. -/
theorem roster_validation_characterization_witness :
    buildRoster [⟨"A", "a@b.cd", ["B"], []⟩, ⟨"B", "b@b.cd", [], ["A"]⟩]
      [["A", "B"]] =
      .ok [⟨"A", "a@b.cd", ["B"], []⟩, ⟨"B", "b@b.cd", [], ["A"]⟩] :=
  ((roster_validation_characterization
      [⟨"A", "a@b.cd", ["B"], []⟩, ⟨"B", "b@b.cd", [], ["A"]⟩]
      [["A", "B"]]).2.2.1 _).mpr
    ⟨rfl, by decide, by unfold RosterValid; exact ⟨by decide, by decide⟩⟩

/-! ### Claim C9 -/

theorem RosterValid_perm {santas santas' : List Santa} (groups : List (List String))
    (hperm : santas.Perm santas') :
    RosterValid santas groups ↔ RosterValid santas' groups := by
  have hnames : ∀ x, x ∈ santas.map (·.name) ↔ x ∈ santas'.map (·.name) :=
    fun x => (hperm.map (·.name)).mem_iff
  constructor
  · rintro ⟨h1, h2⟩
    refine ⟨?_, ?_⟩
    · intro s hs
      obtain ⟨he, hb, ha⟩ := h1 s (hperm.mem_iff.mpr hs)
      exact ⟨he, fun b hbm => (hnames b).mp (hb b hbm),
        fun a ham => (hnames a).mp (ha a ham)⟩
    · intro g hg x hx
      exact (hnames x).mp (h2 g hg x hx)
  · rintro ⟨h1, h2⟩
    refine ⟨?_, ?_⟩
    · intro s hs
      obtain ⟨he, hb, ha⟩ := h1 s (hperm.mem_iff.mp hs)
      exact ⟨he, fun b hbm => (hnames b).mpr (hb b hbm),
        fun a ham => (hnames a).mpr (ha a ham)⟩
    · intro g hg x hx
      exact (hnames x).mpr (h2 g hg x hx)

/-- Claim C9, counterexample: the claim says permuting the input santas
does not change which error is raised.  Swapping the two santas below
changes the reported error from the unknown-reference error to the
invalid-email error, because validation reports the first violation in
iteration order. -/
theorem validation_error_order_dependent :
    ([⟨"A", "a@b.cd", ["Ghost"], []⟩, ⟨"B", "nomail", [], []⟩] : List Santa).Perm
      [⟨"B", "nomail", [], []⟩, ⟨"A", "a@b.cd", ["Ghost"], []⟩] ∧
    buildRoster [⟨"A", "a@b.cd", ["Ghost"], []⟩, ⟨"B", "nomail", [], []⟩] [] =
      .error (.unknownBlocked "Ghost") ∧
    buildRoster [⟨"B", "nomail", [], []⟩, ⟨"A", "a@b.cd", ["Ghost"], []⟩] [] =
      .error (.invalidEmail "nomail") ∧
    (SantaError.unknownBlocked "Ghost") ≠ .invalidEmail "nomail" := by
  refine ⟨?_, by rfl, by rfl, by decide⟩
  exact List.Perm.swap _ _ _

/-- Claim C9 (amended): the roster pipeline is idempotent (running it
again on a successful result succeeds with the same roster), and
permuting the input santas never changes whether validation succeeds —
only the identity of the reported error can change with order. -/
theorem roster_validation_perm_idempotent (santas santas' : List Santa)
    (groups : List (List String)) (hperm : santas.Perm santas') :
    ((∃ m, buildRoster santas groups = .ok m) ↔
      (∃ m', buildRoster santas' groups = .ok m')) ∧
    (∀ m, buildRoster santas groups = .ok m → buildRoster m groups = .ok m) := by
  constructor
  · constructor
    · rintro ⟨m, hm⟩
      obtain ⟨-, hnd, hrv⟩ := (buildRoster_ok santas groups m).mp hm
      refine ⟨santas', (buildRoster_ok santas' groups santas').mpr ⟨rfl, ?_, ?_⟩⟩
      · exact (hperm.map (·.name)).nodup_iff.mp hnd
      · exact (RosterValid_perm groups hperm).mp hrv
    · rintro ⟨m', hm'⟩
      obtain ⟨-, hnd, hrv⟩ := (buildRoster_ok santas' groups m').mp hm'
      refine ⟨santas, (buildRoster_ok santas groups santas).mpr ⟨rfl, ?_, ?_⟩⟩
      · exact (hperm.map (·.name)).nodup_iff.mpr hnd
      · exact (RosterValid_perm groups hperm).mpr hrv
  · intro m hm
    obtain ⟨heq, hnd, hrv⟩ := (buildRoster_ok santas groups m).mp hm
    subst heq
    exact (buildRoster_ok m groups m).mpr ⟨rfl, hnd, hrv⟩

/-- Claim C9 witness: a concrete singleton roster, its trivial
permutation, and the idempotent re-validation of the result. -/
theorem roster_validation_perm_idempotent_witness :
    buildRoster [⟨"A", "a@b.cd", [], []⟩] [] = .ok [⟨"A", "a@b.cd", [], []⟩] :=
  (roster_validation_perm_idempotent [⟨"A", "a@b.cd", [], []⟩]
      [⟨"A", "a@b.cd", [], []⟩] [] (List.Perm.refl _)).2
    [⟨"A", "a@b.cd", [], []⟩] (by rfl)

/-! ### Removal repair lemmas (claims C7 and C10) -/

theorem removeSanta_const_solver (A : List (Nat × Nat)) (tie : Nat → Nat → Nat)
    (santa : String) (smap : List Santa) (prev : List Round)
    (groups : List (List String)) :
    removeSantaFromLastMatches (fun _ => A) tie santa smap prev groups =
      (removalResult A (prev.getLast?.getD []) santa,
       (brokenMatchesOf (prev.getLast?.getD []) santa).map (·.1)) := rfl

theorem find?_name_unique (l : Round) (hnd : (l.map (·.1)).Nodup)
    (u : String × List String) (hu : u ∈ l) :
    l.find? (fun p => decide (p.1 = u.1)) = some u := by
  induction l with
  | nil => cases hu
  | cons q rest ih =>
    rcases List.mem_cons.mp hu with rfl | hu
    · rw [List.find?_cons_of_pos]
      simp
    · have hq : q.1 ≠ u.1 := by
        intro hc
        rw [List.map_cons, List.nodup_cons] at hnd
        exact hnd.1 (hc ▸ List.mem_map.mpr ⟨u, hu, rfl⟩)
      rw [List.find?_cons_of_neg _ (by simpa using hq)]
      exact ih (by rw [List.map_cons, List.nodup_cons] at hnd; exact hnd.2) hu

theorem eq_of_name_eq {l : Round} (hnd : (l.map (·.1)).Nodup)
    {p q : String × List String} (hp : p ∈ l) (hq : q ∈ l) (h : p.1 = q.1) : p = q :=
  List.inj_on_of_nodup_map hnd hp hq h

theorem map_getD_range {α : Type} (l : List α) (d : α) :
    (List.range l.length).map (fun i => l.getD i d) = l := by
  apply List.ext_getElem
  · simp
  · intro i h1 h2
    simp [List.getD_eq_getElem?_getD, List.getElem?_eq_getElem h2]

theorem brokenMatchesOf_mem {last : Round} {santa : String} {p : String × List String} :
    p ∈ brokenMatchesOf last santa ↔ p ∈ last ∧ santa ∈ p.2 := by
  rw [brokenMatchesOf, List.mem_filter]
  simp

theorem brokenAssigneesOf_eq {last : Round} {santa : String}
    (hnd : (last.map (·.1)).Nodup) {p : String × List String}
    (hp : p ∈ last) (hname : p.1 = santa) :
    brokenAssigneesOf last santa = p.2 := by
  rw [brokenAssigneesOf]
  have hf := find?_name_unique last hnd p hp
  rw [hname] at hf
  rw [hf]
  rfl

theorem broken_giver_ne {last : Round} {santa : String}
    (hnd : (last.map (·.1)).Nodup)
    (hself : santa ∉ brokenAssigneesOf last santa) :
    ∀ p ∈ brokenMatchesOf last santa, p.1 ≠ santa := by
  intro p hp hc
  obtain ⟨hpl, hps⟩ := brokenMatchesOf_mem.mp hp
  rw [brokenAssigneesOf_eq hnd hpl hc] at hself
  exact hself hps

theorem brokenMatchesOf_names_nodup {last : Round} {santa : String}
    (hnd : (last.map (·.1)).Nodup) :
    ((brokenMatchesOf last santa).map (·.1)).Nodup := by
  rw [brokenMatchesOf]
  exact List.Nodup.sublist (List.Sublist.map _ (List.filter_sublist _)) hnd

theorem removalUpdates_names (A : List (Nat × Nat)) (bm : Round) (LP : List String)
    (santa : String)
    (hA1 : (A.map Prod.fst).Perm (List.range bm.length)) :
    ((removalUpdates A bm LP santa).map (·.1)).Perm (bm.map (·.1)) := by
  have h1 : (removalUpdates A bm LP santa).map (·.1) =
      (A.map Prod.fst).map (fun i => (bm.getD i ("", [])).1) := by
    rw [removalUpdates, List.map_map, List.map_map]
    rfl
  rw [h1]
  refine (hA1.map (fun i => (bm.getD i ("", [])).1)).trans ?_
  have h2 : (List.range bm.length).map (fun i => (bm.getD i ("", [])).1) =
      ((List.range bm.length).map (fun i => bm.getD i ("", []))).map (·.1) := by
    rw [List.map_map]
    rfl
  rw [h2, map_getD_range]

theorem removalUpdates_shape (A : List (Nat × Nat)) (bm : Round) (LP : List String)
    (santa : String)
    (hA1 : (A.map Prod.fst).Perm (List.range bm.length))
    (hA2 : (A.map Prod.snd).Perm (List.range bm.length))
    (hsq : bm.length = LP.length) :
    ∀ u ∈ removalUpdates A bm LP santa, ∃ q ∈ bm, ∃ j, j < LP.length ∧
      u = (q.1, q.2.filter (fun a => decide (a ≠ santa)) ++ [LP.getD j ""]) := by
  intro u hu
  rw [removalUpdates] at hu
  obtain ⟨pr, hpr, rfl⟩ := List.mem_map.mp hu
  have hi : pr.1 < bm.length := by
    have : pr.1 ∈ A.map Prod.fst := List.mem_map.mpr ⟨pr, hpr, rfl⟩
    have := hA1.mem_iff.mp this
    simpa using this
  have hj : pr.2 < LP.length := by
    have : pr.2 ∈ A.map Prod.snd := List.mem_map.mpr ⟨pr, hpr, rfl⟩
    have := hA2.mem_iff.mp this
    rw [List.mem_range] at this
    omega
  refine ⟨bm.getD pr.1 ("", []), ?_, pr.2, hj, rfl⟩
  rw [List.getD_eq_getElem _ _ hi]
  exact List.getElem_mem hi

theorem removalUpdates_cover (A : List (Nat × Nat)) (bm : Round) (LP : List String)
    (santa : String)
    (hA1 : (A.map Prod.fst).Perm (List.range bm.length))
    (hA2 : (A.map Prod.snd).Perm (List.range bm.length))
    (hsq : bm.length = LP.length) :
    ∀ q ∈ bm, ∃ u ∈ removalUpdates A bm LP santa, u.1 = q.1 ∧ ∃ j, j < LP.length ∧
      u = (q.1, q.2.filter (fun a => decide (a ≠ santa)) ++ [LP.getD j ""]) := by
  intro q hq
  obtain ⟨i, hi, hqi⟩ := List.getElem_of_mem hq
  have hmem : i ∈ A.map Prod.fst := by
    refine hA1.mem_iff.mpr ?_
    rw [List.mem_range]
    exact hi
  obtain ⟨pr, hpr, hpri⟩ := List.mem_map.mp hmem
  have hj : pr.2 < LP.length := by
    have : pr.2 ∈ A.map Prod.snd := List.mem_map.mpr ⟨pr, hpr, rfl⟩
    have := hA2.mem_iff.mp this
    rw [List.mem_range] at this
    omega
  have hgd : bm.getD pr.1 ("", []) = q := by
    rw [hpri, List.getD_eq_getElem _ _ hi, hqi]
  refine ⟨(q.1, q.2.filter (fun a => decide (a ≠ santa)) ++ [LP.getD pr.2 ""]),
    ?_, rfl, pr.2, hj, rfl⟩
  rw [removalUpdates]
  refine List.mem_map.mpr ⟨pr, hpr, ?_⟩
  simp only [hgd]

theorem removalResult_spec (last : Round) (santa : String) (A : List (Nat × Nat))
    (hnd : (last.map (·.1)).Nodup)
    (hself : santa ∉ brokenAssigneesOf last santa)
    (hsq : (brokenMatchesOf last santa).length = (brokenAssigneesOf last santa).length)
    (hA1 : (A.map Prod.fst).Perm (List.range (brokenMatchesOf last santa).length))
    (hA2 : (A.map Prod.snd).Perm (List.range (brokenMatchesOf last santa).length)) :
    (∀ p ∈ removalResult A last santa, p.1 ≠ santa ∧ santa ∉ p.2) ∧
    (∀ p ∈ last, p.1 ≠ santa → santa ∉ p.2 → p ∈ removalResult A last santa) ∧
    (∀ p ∈ last, santa ∈ p.2 → ∃ a ∈ brokenAssigneesOf last santa,
      (p.1, p.2.filter (fun x => decide (x ≠ santa)) ++ [a]) ∈ removalResult A last santa) ∧
    (((removalResult A last santa).filter
        (fun p => decide (p.1 ∈ (brokenMatchesOf last santa).map (·.1)))).map (·.1)).Perm
      ((brokenMatchesOf last santa).map (·.1)) ∧
    (((removalResult A last santa).filter
        (fun p => decide (p.1 ∈ (brokenMatchesOf last santa).map (·.1)))).filterMap
      (fun p => p.2.getLast?)).Perm (brokenAssigneesOf last santa) := by
  have hbne : ∀ p ∈ brokenMatchesOf last santa, p.1 ≠ santa := broken_giver_ne hnd hself
  have hbs_nd : ((brokenMatchesOf last santa).map (·.1)).Nodup :=
    brokenMatchesOf_names_nodup hnd
  have hUnames := removalUpdates_names A (brokenMatchesOf last santa)
    (brokenAssigneesOf last santa) santa hA1
  have hU_nd_names : ((removalUpdates A (brokenMatchesOf last santa)
      (brokenAssigneesOf last santa) santa).map (·.1)).Nodup :=
    hUnames.nodup_iff.mpr hbs_nd
  have hU_nd : (removalUpdates A (brokenMatchesOf last santa)
      (brokenAssigneesOf last santa) santa).Nodup :=
    List.Nodup.of_map _ hU_nd_names
  have hshape := removalUpdates_shape A (brokenMatchesOf last santa)
    (brokenAssigneesOf last santa) santa hA1 hA2 hsq
  have hcover := removalUpdates_cover A (brokenMatchesOf last santa)
    (brokenAssigneesOf last santa) santa hA1 hA2 hsq
  have hfindU : ∀ u ∈ removalUpdates A (brokenMatchesOf last santa)
      (brokenAssigneesOf last santa) santa,
      (removalUpdates A (brokenMatchesOf last santa)
        (brokenAssigneesOf last santa) santa).find? (fun v => decide (v.1 = u.1)) =
        some u :=
    fun u hu => find?_name_unique _ hU_nd_names u hu
  have htname : ∀ q : String × List String,
      (((removalUpdates A (brokenMatchesOf last santa)
        (brokenAssigneesOf last santa) santa).find?
          (fun u => decide (u.1 = q.1))).getD q).1 = q.1 := by
    intro q
    cases hfq : (removalUpdates A (brokenMatchesOf last santa)
        (brokenAssigneesOf last santa) santa).find? (fun u => decide (u.1 = q.1)) with
    | none => rfl
    | some u =>
      have := List.find?_some hfq
      simp only [decide_eq_true_eq] at this
      simp [this]
  have hres_elem : ∀ p ∈ removalResult A last santa, ∃ q ∈ last, q.1 ≠ santa ∧
      p = ((removalUpdates A (brokenMatchesOf last santa)
        (brokenAssigneesOf last santa) santa).find?
          (fun u => decide (u.1 = q.1))).getD q := by
    intro p hp
    rw [removalResult] at hp
    obtain ⟨q, hq, rfl⟩ := List.mem_map.mp hp
    have hqf := List.mem_filter.mp hq
    exact ⟨q, hqf.1, by simpa using hqf.2, rfl⟩
  have hfind_broken : ∀ q ∈ brokenMatchesOf last santa,
      ∃ j, j < (brokenAssigneesOf last santa).length ∧
      (removalUpdates A (brokenMatchesOf last santa)
        (brokenAssigneesOf last santa) santa).find? (fun u => decide (u.1 = q.1)) =
        some (q.1, q.2.filter (fun a => decide (a ≠ santa)) ++
          [(brokenAssigneesOf last santa).getD j ""]) := by
    intro q hq
    obtain ⟨u, hu, hun, j, hj, hueq⟩ := hcover q hq
    refine ⟨j, hj, ?_⟩
    have hf := hfindU u hu
    rw [hun] at hf
    rw [hueq] at hf
    exact hf
  have hfind_unbroken : ∀ q ∈ last, santa ∉ q.2 →
      (removalUpdates A (brokenMatchesOf last santa)
        (brokenAssigneesOf last santa) santa).find? (fun u => decide (u.1 = q.1)) =
        none := by
    intro q hql hqs
    rw [List.find?_eq_none]
    intro u hu hdec
    simp only [decide_eq_true_eq] at hdec
    obtain ⟨q', hq', j, hj, hueq⟩ := hshape u hu
    have hq'l : q' ∈ last := (brokenMatchesOf_mem.mp hq').1
    have hq'q : q'.1 = q.1 := by
      rw [hueq] at hdec
      simpa using hdec
    have : q' = q := eq_of_name_eq hnd hq'l hql hq'q
    subst this
    exact hqs (brokenMatchesOf_mem.mp hq').2
  have hresnames : (removalResult A last santa).map (·.1) =
      (last.filter (fun p => decide (p.1 ≠ santa))).map (·.1) := by
    rw [removalResult, List.map_map]
    exact List.map_congr_left (fun q _ => htname q)
  have hres_nd_names : ((removalResult A last santa).map (·.1)).Nodup := by
    rw [hresnames]
    exact List.Nodup.sublist (List.Sublist.map _ (List.filter_sublist _)) hnd
  have hres_nd : (removalResult A last santa).Nodup := List.Nodup.of_map _ hres_nd_names
  have hkey : ((removalResult A last santa).filter
      (fun p => decide (p.1 ∈ (brokenMatchesOf last santa).map (·.1)))).Perm
      (removalUpdates A (brokenMatchesOf last santa)
        (brokenAssigneesOf last santa) santa) := by
    apply List.perm_of_nodup_nodup_toFinset_eq (List.Nodup.filter _ hres_nd) hU_nd
    ext x
    simp only [List.mem_toFinset, List.mem_filter, decide_eq_true_eq]
    constructor
    · rintro ⟨hxres, hxbs⟩
      obtain ⟨q, hql, hqn, rfl⟩ := hres_elem x hxres
      rw [htname q] at hxbs
      obtain ⟨b, hb, hbq⟩ := List.mem_map.mp hxbs
      have hbl : b ∈ last := (brokenMatchesOf_mem.mp hb).1
      have hbeq : b = q := eq_of_name_eq hnd hbl hql hbq
      subst hbeq
      obtain ⟨j, hj, hfq⟩ := hfind_broken b hb
      rw [hfq]
      exact List.mem_of_find?_eq_some hfq
    · intro hxU
      obtain ⟨q', hq', j, hj, rfl⟩ := hshape x hxU
      have hq'l : q' ∈ last := (brokenMatchesOf_mem.mp hq').1
      constructor
      · rw [removalResult]
        refine List.mem_map.mpr ⟨q', List.mem_filter.mpr
          ⟨hq'l, by simpa using hbne q' hq'⟩, ?_⟩
        have hf := hfindU _ hxU
        rw [hf]
        rfl
      · exact List.mem_map.mpr ⟨q', hq', rfl⟩
  refine ⟨?_, ?_, ?_, ?_, ?_⟩
  · intro p hp
    obtain ⟨q, hql, hqn, rfl⟩ := hres_elem p hp
    constructor
    · rw [htname q]
      exact hqn
    · by_cases hbr : santa ∈ q.2
      · have hqbm : q ∈ brokenMatchesOf last santa := brokenMatchesOf_mem.mpr ⟨hql, hbr⟩
        obtain ⟨j, hj, hfq⟩ := hfind_broken q hqbm
        rw [hfq]
        simp only [Option.getD_some]
        intro hmem
        rcases List.mem_append.mp hmem with hm | hm
        · have := List.of_mem_filter hm
          simp at this
        · have heq : santa = (brokenAssigneesOf last santa).getD j "" :=
            List.eq_of_mem_singleton hm
          have hmem2 : (brokenAssigneesOf last santa).getD j "" ∈
              brokenAssigneesOf last santa := by
            rw [List.getD_eq_getElem _ _ hj]
            exact List.getElem_mem hj
          rw [← heq] at hmem2
          exact hself hmem2
      · rw [hfind_unbroken q hql hbr]
        simpa using hbr
  · intro p hpl hpn hps
    rw [removalResult]
    refine List.mem_map.mpr ⟨p, List.mem_filter.mpr ⟨hpl, by simpa using hpn⟩, ?_⟩
    rw [hfind_unbroken p hpl hps]
    rfl
  · intro p hpl hps
    have hpbm : p ∈ brokenMatchesOf last santa := brokenMatchesOf_mem.mpr ⟨hpl, hps⟩
    obtain ⟨j, hj, hfq⟩ := hfind_broken p hpbm
    refine ⟨(brokenAssigneesOf last santa).getD j "", ?_, ?_⟩
    · rw [List.getD_eq_getElem _ _ hj]
      exact List.getElem_mem hj
    · rw [removalResult]
      refine List.mem_map.mpr ⟨p, List.mem_filter.mpr
        ⟨hpl, by simpa using hbne p hpbm⟩, ?_⟩
      rw [hfq]
      rfl
  · exact (hkey.map (·.1)).trans hUnames
  · refine (hkey.filterMap (fun p => p.2.getLast?)).trans ?_
    have hstepB : (removalUpdates A (brokenMatchesOf last santa)
        (brokenAssigneesOf last santa) santa).filterMap (fun p => p.2.getLast?) =
        A.map (fun pr => (brokenAssigneesOf last santa).getD pr.2 "") := by
      rw [removalUpdates, List.filterMap_map]
      have hcomp : ((fun p : String × List String => p.2.getLast?) ∘
          (fun pr : Nat × Nat =>
            ((brokenMatchesOf last santa).getD pr.1 ("", []) |>.1,
             (((brokenMatchesOf last santa).getD pr.1 ("", [])).2.filter
                (fun a => decide (a ≠ santa))) ++
               [(brokenAssigneesOf last santa).getD pr.2 ""]))) =
          (some ∘ fun pr : Nat × Nat => (brokenAssigneesOf last santa).getD pr.2 "") := by
        funext pr
        simp [List.getLast?_concat]
      rw [hcomp, List.filterMap_eq_map]
    rw [hstepB]
    have h1 : A.map (fun pr => (brokenAssigneesOf last santa).getD pr.2 "") =
        (A.map Prod.snd).map (fun j => (brokenAssigneesOf last santa).getD j "") := by
      rw [List.map_map]
      rfl
    rw [h1]
    refine (hA2.map (fun j => (brokenAssigneesOf last santa).getD j "")).trans ?_
    rw [hsq, map_getD_range]

/-! ### Claim C7 -/

/-- Claim C7, counterexample: the claim promises that the removed
santa appears nowhere as an assignee and that their former assignees
are redistributed one-to-one among the broken givers, for every
most-recent round in which they are a giver.  Here both A and B gave
to P while P gave only to C, so the score matrix fed to munkres has
two rows and one column.  munkres-js pads a rectangular matrix with a
zero column, solves the padded square, and reports only the pairs
inside the original dimensions — exactly one pair here.  A blocks C,
so A's single row entry is its tie-break (at most `2 ^ 2 = 4`) plus
the blocked penalty `2 ^ 7 = 128`, while B's is its tie-break alone
(at most 4): the two evaluation conjuncts below exhibit these rows at
tie value 1, and for every random draw the unique minimum-cost padded
assignment sends the one real column to row 1, so compute returns
`[[1, 0]]` — the solver output instantiated here.  Only B receives an
update; A's entry survives the `?? match` fallback still naming P, so
P remains an assignee and A inherits nothing. -/
theorem removal_keeps_stale_reference :
    removeSantaFromLastMatches (fun _ => [(1, 0)]) (fun _ _ => 1) "P"
      [⟨"A", "a@b.cd", ["C"], []⟩, ⟨"B", "b@b.cd", [], []⟩,
       ⟨"C", "c@b.cd", [], []⟩, ⟨"P", "p@b.cd", [], []⟩]
      [[("A", ["P"]), ("B", ["P"]), ("P", ["C"]), ("C", ["B"])]] [] =
      ([("A", ["P"]), ("B", ["C"]), ("C", ["B"])], ["A", "B"]) ∧
    (scoreSantaMatches (fun _ => 1) ⟨"A", "a@b.cd", ["C"], []⟩
      [("A", []), ("C", [])] [] []).tail = [129] ∧
    (scoreSantaMatches (fun _ => 1) ⟨"B", "b@b.cd", [], []⟩
      [("B", []), ("C", [])] [] []).tail = [1] ∧
    ¬ (∀ p ∈ [(("A" : String), ["P"]), ("B", ["C"]), ("C", ["B"])], "P" ∉ p.2) := by
  refine ⟨by decide, by decide, by decide, ?_⟩
  intro hcl
  exact hcl ("A", ["P"]) (by simp) (by simp)

/-- Claim C7 (amended): for a most-recent round with distinct giver
names in which `santa` is a giver, is not their own assignee, and the
number of broken givers equals the number of santa's former assignees
(the square case, the one munkres-js guarantees a perfect matching
for), every solver output that is a bijection between rows and columns
yields a round in which santa appears nowhere as giver or assignee,
every giver who did not point at santa keeps an unchanged list, every
broken giver keeps their old list minus santa plus exactly one
inherited assignee, the broken givers of the result are exactly the
original broken givers, and the multiset of inherited assignees is
exactly the multiset of santa's former assignees — none lost, none
duplicated.  (As stated the claim is false when the matrix is not
square: with more broken givers than broken assignees munkres-js
reports only as many pairs as there are real columns and the
remaining broken givers keep a stale entry naming the removed santa,
and on an empty matrix munkres-js throws before returning at all.) -/
theorem removal_redistributes_square
    (tie : Nat → Nat → Nat) (santa : String) (smap : List Santa)
    (prev : List Round) (groups : List (List String)) (last : Round)
    (A : List (Nat × Nat))
    (hlast : prev.getLast? = some last)
    (hnd : (last.map (·.1)).Nodup)
    (hgiver : santa ∈ last.map (·.1))
    (hself : santa ∉ brokenAssigneesOf last santa)
    (hsq : (brokenMatchesOf last santa).length = (brokenAssigneesOf last santa).length)
    (hA1 : (A.map Prod.fst).Perm (List.range (brokenMatchesOf last santa).length))
    (hA2 : (A.map Prod.snd).Perm (List.range (brokenMatchesOf last santa).length)) :
    (∀ p ∈ (removeSantaFromLastMatches (fun _ => A) tie santa smap prev groups).1,
      p.1 ≠ santa ∧ santa ∉ p.2) ∧
    (∀ p ∈ last, p.1 ≠ santa → santa ∉ p.2 →
      p ∈ (removeSantaFromLastMatches (fun _ => A) tie santa smap prev groups).1) ∧
    (∀ p ∈ last, santa ∈ p.2 → ∃ a ∈ brokenAssigneesOf last santa,
      (p.1, p.2.filter (fun x => decide (x ≠ santa)) ++ [a]) ∈
        (removeSantaFromLastMatches (fun _ => A) tie santa smap prev groups).1) ∧
    ((((removeSantaFromLastMatches (fun _ => A) tie santa smap prev groups).1).filter
        (fun p => decide (p.1 ∈ (brokenMatchesOf last santa).map (·.1)))).map (·.1)).Perm
      ((brokenMatchesOf last santa).map (·.1)) ∧
    ((((removeSantaFromLastMatches (fun _ => A) tie santa smap prev groups).1).filter
        (fun p => decide (p.1 ∈ (brokenMatchesOf last santa).map (·.1)))).filterMap
      (fun p => p.2.getLast?)).Perm (brokenAssigneesOf last santa) := by
  have hrun := removeSanta_const_solver A tie santa smap prev groups
  have hl : prev.getLast?.getD [] = last := by rw [hlast]; rfl
  rw [hrun, hl]
  exact removalResult_spec last santa A hnd hself hsq hA1 hA2

/-- Claim C7 witness: the square case with one broken giver — A gave to
P, P gave to C — and the unique 1×1 assignment; instantiated at the
repaired entry for A, which neither is nor contains P. -/
theorem removal_redistributes_square_witness :
    (("A" : String), ["C"]).1 ≠ "P" ∧ "P" ∉ (("A" : String), ["C"]).2 :=
  (removal_redistributes_square (fun _ _ => 1) "P"
    [⟨"A", "a@b.cd", [], []⟩, ⟨"P", "p@b.cd", [], []⟩, ⟨"C", "c@b.cd", [], []⟩]
    [[("A", ["P"]), ("P", ["C"]), ("C", ["A"])]] []
    [("A", ["P"]), ("P", ["C"]), ("C", ["A"])] [(0, 0)]
    (by rfl) (by decide) (by decide) (by decide) (by decide)
    (by decide) (by decide)).1 ("A", ["C"]) (by decide)

/-! ### Claim C10 -/

/-- Claim C10: removal repair never hard-filters self-pairings, it only
penalizes them: with the most recent round A→[B], B→[A] and count 1,
removing B leaves A as the only broken giver and A as the only broken
assignee, so the 1×1 assignment matches A with themself and the
repaired round assigns A→[A]. -/
theorem removal_self_assignment :
    removeSantaFromLastMatches munkresModel (fun _ _ => 1) "B"
      [⟨"A", "a@b.cd", [], []⟩, ⟨"B", "b@b.cd", [], []⟩]
      [[("A", ["B"]), ("B", ["A"])]] [] =
      ([("A", ["A"])], ["A"]) := by
  decide

end SecretSanta
